import Mathlib

/-!
Shallow embedding of the journal-store logic of the `sojourn` repository
(`src/lib/store/journalStore.ts` and the filtering logic of
`src/components/EditorWrapper.tsx`), together with proofs settling the
frozen claims about its natural-language specification.

Modelling conventions:
* JavaScript `Date` values are modelled as integer millisecond timestamps
  (`Int`); truncation to a calendar day (`setHours(0,0,0,0)` /
  `toISOString().slice(0,10)`) is modelled as flooring division by the
  number of milliseconds per day, i.e. a fixed-offset timezone.
* JavaScript numbers are modelled as integers; no claim depends on
  fractional values.
* The store's entry collection is polymorphic in the entry type: the typed
  operations act on well-formed `JournalEntry` records, while import/export
  act on raw parsed JSON values (`JVal`), exactly as in the source, where
  imported entries are whatever objects survived structural validation.
-/

namespace Sojourn

/-- Millisecond timestamps standing in for JavaScript `Date` values. -/
abbrev Timestamp := Int

/-- Geographic coordinates of `JournalEntry.location.coordinates`. -/
structure Coordinates where
  latitude : Int
  longitude : Int
deriving Repr, DecidableEq

/-- Optional location attached to an entry (`JournalEntry.location`). -/
structure EntryLocation where
  name : String
  coordinates : Option Coordinates
deriving Repr, DecidableEq

/-- Optional weather snapshot attached to an entry (`JournalEntry.weather`). -/
structure EntryWeather where
  condition : String
  temperature : Int
  icon : String
deriving Repr, DecidableEq

/-- The core entity of the store (`JournalEntry` in `journalStore.ts`). -/
structure JournalEntry where
  id : String
  title : String
  content : String
  createdAt : Timestamp
  updatedAt : Timestamp
  tags : List String
  mood : Option String
  isFavorite : Bool
  images : List String
  location : Option EntryLocation
  weather : Option EntryWeather
  isDeleted : Bool
  deletedAt : Option Timestamp
deriving Repr, DecidableEq

/-- The three view modes of the store (`viewMode`). -/
inductive ViewMode where
  | all
  | favorites
  | deleted
deriving Repr, DecidableEq

/-- Sort orders of `JournalSettings.defaultSortOrder`. -/
inductive SortOrder where
  | newest
  | oldest
  | alphabetical
deriving Repr, DecidableEq

/-- Editor theme preference of `JournalSettings.editorTheme`. -/
inductive EditorTheme where
  | light
  | dark
  | system
deriving Repr, DecidableEq

/-- UI preferences (`JournalSettings` in `journalStore.ts`). -/
structure JournalSettings where
  enableAnimations : Bool
  compactMode : Bool
  entryGoal : Nat
  useTemplates : Bool
  defaultSortOrder : SortOrder
  editorTheme : EditorTheme
  fontFamily : String
deriving Repr, DecidableEq

/-- Default settings (`DEFAULT_SETTINGS` in `journalStore.ts`). -/
def DEFAULT_SETTINGS : JournalSettings :=
  { enableAnimations := true
    compactMode := false
    entryGoal := 5
    useTemplates := false
    defaultSortOrder := SortOrder.newest
    editorTheme := EditorTheme.system
    fontFamily := "default" }

/-- Derived streak statistics (`streakData` in the store state). -/
structure StreakData where
  currentStreak : Nat
  longestStreak : Nat
  lastEntryDate : Option Timestamp
deriving Repr, DecidableEq

/-- The store state (`JournalState` in `journalStore.ts`), polymorphic in the
entry type: `E := JournalEntry` for the typed operations, `E := JVal` for
import/export, which handle raw parsed JSON objects. -/
structure JournalState (E : Type) where
  entries : List E
  currentEntry : Option E
  searchQuery : String
  selectedTag : Option String
  selectedMood : Option String
  selectedDate : Option Timestamp
  isEditing : Bool
  cachedTags : Option (List String)
  entriesLength : Nat
  viewMode : ViewMode
  settings : JournalSettings
  streakData : StreakData
deriving Repr, DecidableEq

/-- Typed store state. -/
abbrev TypedState := JournalState JournalEntry

/-! ### Store operations on typed entries

Each operation that calls `new Date()` in the source takes the current
timestamp `now` as an explicit argument. -/

/-- The `toggleFavorite` action (journalStore.ts lines 403-425): flips
`isFavorite` on the matching collection entry and on the duplicated
current-entry copy; returns only `entries` and `currentEntry`, so every
other state field (in particular `cachedTags` and each entry's `updatedAt`)
is untouched. -/
def toggleFavorite (id : String) (s : TypedState) : TypedState :=
  let updatedEntries := s.entries.map fun entry =>
    if entry.id = id then { entry with isFavorite := !entry.isFavorite } else entry
  let updatedCurrentEntry :=
    match s.currentEntry with
    | some c => if c.id = id then some { c with isFavorite := !c.isFavorite } else some c
    | none => none
  { s with entries := updatedEntries, currentEntry := updatedCurrentEntry }

/-- The `restoreEntry` action (journalStore.ts lines 333-350): clears the
soft-delete mark on matching collection entries; the returned update object
contains `entries`, `entriesLength` and `cachedTags` only — `currentEntry`
is not part of it and therefore keeps its (possibly stale) value. -/
def restoreEntry (id : String) (s : TypedState) : TypedState :=
  let updatedEntries := s.entries.map fun entry =>
    if entry.id = id then { entry with isDeleted := false, deletedAt := none } else entry
  { s with entries := updatedEntries,
           entriesLength := updatedEntries.length,
           cachedTags := none }

/-- The `deleteEntry` action (soft delete, journalStore.ts lines 280-307). -/
def deleteEntry (now : Timestamp) (id : String) (s : TypedState) : TypedState :=
  let updatedEntries := s.entries.map fun entry =>
    if entry.id = id then { entry with isDeleted := true, deletedAt := some now } else entry
  let updatedCurrentEntry :=
    match s.currentEntry with
    | some c =>
        if c.id = id then updatedEntries.find? (fun entry => !entry.isDeleted)
        else some c
    | none => none
  { s with entries := updatedEntries,
           currentEntry := updatedCurrentEntry,
           entriesLength := updatedEntries.length,
           cachedTags := none }

/-- The `permanentlyDeleteEntry` action (journalStore.ts lines 309-331). -/
def permanentlyDeleteEntry (id : String) (s : TypedState) : TypedState :=
  let updatedEntries := s.entries.filter fun entry => entry.id ≠ id
  let updatedCurrentEntry :=
    match s.currentEntry with
    | some c =>
        if c.id = id then
          s.entries.find? (fun entry => entry.isDeleted && entry.id ≠ id)
        else some c
    | none => none
  { s with entries := updatedEntries,
           currentEntry := updatedCurrentEntry,
           entriesLength := updatedEntries.length,
           cachedTags := none }

/-- The `emptyBin` action (journalStore.ts lines 352-373). -/
def emptyBin (s : TypedState) : TypedState :=
  let updatedEntries := s.entries.filter fun entry => !entry.isDeleted
  let updatedCurrentEntry :=
    match s.currentEntry with
    | some c => if c.isDeleted then updatedEntries.head? else some c
    | none => none
  { s with entries := updatedEntries,
           currentEntry := updatedCurrentEntry,
           entriesLength := updatedEntries.length,
           cachedTags := none }

/-- JavaScript `Array.prototype.splice(start, 1)` restricted to its effect on
the list: a negative `start` counts from the end of the list (clamped at 0),
a `start` of at least the length removes nothing. -/
def spliceRemoveOne (l : List String) (start : Int) : List String :=
  let len : Int := l.length
  let actualStart : Nat := (if start < 0 then max (len + start) 0 else min start len).toNat
  l.take actualStart ++ l.drop (actualStart + 1)

/-- The `addImageToEntry` action (journalStore.ts lines 472-498). -/
def addImageToEntry (now : Timestamp) (id : String) (imageBase64 : String)
    (s : TypedState) : TypedState :=
  let updatedEntries := s.entries.map fun entry =>
    if entry.id = id then
      { entry with images := entry.images ++ [imageBase64], updatedAt := now }
    else entry
  let updatedCurrentEntry :=
    match s.currentEntry with
    | some c =>
        if c.id = id then
          some { c with images := c.images ++ [imageBase64], updatedAt := now }
        else some c
    | none => none
  { s with entries := updatedEntries, currentEntry := updatedCurrentEntry }

/-- The `removeImageFromEntry` action (journalStore.ts lines 500-532): looks
up the first entry with the given id, splices one element out of a copy of
its image list, and writes the resulting list (and a fresh `updatedAt`) to
every matching collection entry and to the current-entry copy. -/
def removeImageFromEntry (now : Timestamp) (id : String) (imageIndex : Int)
    (s : TypedState) : TypedState :=
  match s.entries.find? (fun e => e.id = id) with
  | none => s
  | some entry =>
    let updatedImages := spliceRemoveOne entry.images imageIndex
    let updatedEntries := s.entries.map fun e =>
      if e.id = id then { e with images := updatedImages, updatedAt := now } else e
    let updatedCurrentEntry :=
      match s.currentEntry with
      | some c =>
          if c.id = id then some { c with images := updatedImages, updatedAt := now }
          else some c
      | none => none
    { s with entries := updatedEntries, currentEntry := updatedCurrentEntry }

/-- The `updateEntryLocation` action (journalStore.ts lines 534-552). -/
def updateEntryLocation (now : Timestamp) (id : String)
    (location : Option EntryLocation) (s : TypedState) : TypedState :=
  let updatedEntries := s.entries.map fun entry =>
    if entry.id = id then { entry with location := location, updatedAt := now } else entry
  let updatedCurrentEntry :=
    match s.currentEntry with
    | some c =>
        if c.id = id then some { c with location := location, updatedAt := now }
        else some c
    | none => none
  { s with entries := updatedEntries, currentEntry := updatedCurrentEntry }

/-- The `updateEntryWeather` action (journalStore.ts lines 554-572). -/
def updateEntryWeather (now : Timestamp) (id : String)
    (weather : Option EntryWeather) (s : TypedState) : TypedState :=
  let updatedEntries := s.entries.map fun entry =>
    if entry.id = id then { entry with weather := weather, updatedAt := now } else entry
  let updatedCurrentEntry :=
    match s.currentEntry with
    | some c =>
        if c.id = id then some { c with weather := weather, updatedAt := now }
        else some c
    | none => none
  { s with entries := updatedEntries, currentEntry := updatedCurrentEntry }


/-- A store state with no entries and default transient fields, mirroring the
initial state literal of the store (journalStore.ts lines 184-199); used as a
base for concrete instances. -/
def baseState : TypedState :=
  { entries := []
    currentEntry := none
    searchQuery := ""
    selectedTag := none
    selectedMood := none
    selectedDate := none
    isEditing := false
    cachedTags := none
    entriesLength := 0
    viewMode := ViewMode.all
    settings := DEFAULT_SETTINGS
    streakData := { currentStreak := 0, longestStreak := 0, lastEntryDate := none } }

/-- A sample well-formed entry used in concrete instances. -/
def sampleEntry : JournalEntry :=
  { id := "a", title := "t", content := "", createdAt := 0, updatedAt := 0,
    tags := [], mood := none, isFavorite := false, images := ["img"],
    location := none, weather := none, isDeleted := false, deletedAt := none }

/-- A one-entry store whose only entry is also the current entry. -/
def singleEntryState : TypedState :=
  { baseState with entries := [sampleEntry], currentEntry := some sampleEntry }

/-! ### Raw JavaScript values

The import/export path and the `content` normalization of `updateEntry`
handle raw JavaScript values: everything `JSON.parse` can produce, plus
`undefined` and `Date` objects, which appear in processed entries. A `Date`
carries an optional timestamp, `none` standing for an Invalid Date. -/

/-- Raw JavaScript value. -/
inductive JVal where
  | undef
  | null
  | bool (b : Bool)
  | num (n : Int)
  | str (s : String)
  | arr (elements : List JVal)
  | obj (fields : List (String × JVal))
  | date (t : Option Int)
deriving Repr

/-- First-match field lookup in a plain object's field list; a missing key
yields `undefined`. -/
def lookupField : List (String × JVal) → String → JVal
  | [], _ => JVal.undef
  | (k', v) :: fs, k => if k' = k then v else lookupField fs k

/-- JavaScript property access `e[k]` as the import path uses it: objects
look up the field; arrays, dates and primitives have no such own property.
Access on `null`/`undefined` throws in JavaScript; the model's callers
handle that case before calling `getField`. -/
def getField : JVal → String → JVal
  | JVal.obj fs, k => lookupField fs k
  | _, _ => JVal.undef

/-- JavaScript truthiness. -/
def truthy : JVal → Bool
  | JVal.undef => false
  | JVal.null => false
  | JVal.bool b => b
  | JVal.num n => n ≠ 0
  | JVal.str s => s ≠ ""
  | JVal.arr _ => true
  | JVal.obj _ => true
  | JVal.date _ => true

/-- Whether the value is a string (JavaScript `typeof v === "string"`). -/
def JVal.isStr : JVal → Bool
  | JVal.str _ => true
  | _ => false

/-- Whether the value is `null`. -/
def JVal.isNull : JVal → Bool
  | JVal.null => true
  | _ => false

/-- JavaScript `Array.isArray`. -/
def JVal.isArray : JVal → Bool
  | JVal.arr _ => true
  | _ => false

/-- The elements of an array value (callers check `isArray` first). -/
def JVal.elements : JVal → List JVal
  | JVal.arr es => es
  | _ => []

/-- JavaScript `typeof v === "object"`: true for `null`, arrays, plain
objects and dates. -/
def isObjectType : JVal → Bool
  | JVal.null => true
  | JVal.arr _ => true
  | JVal.obj _ => true
  | JVal.date _ => true
  | _ => false

/-- Assignment of a field in a field list: an existing key keeps its position
and receives the new value, a new key is appended — the effect of writing a
property after an object spread. -/
def setFieldList : List (String × JVal) → String → JVal → List (String × JVal)
  | [], k, v => [(k, v)]
  | (k', v') :: fs, k, v =>
      if k' = k then (k, v) :: fs else (k', v') :: setFieldList fs k v

/-- Assignment of a field on an object value. The import path only assigns
fields on objects that passed structural validation, which are plain objects;
other values are returned unchanged (dead code in the model). -/
def setField : JVal → String → JVal → JVal
  | JVal.obj fs, k, v => JVal.obj (setFieldList fs k v)
  | e, _, _ => e

/-- Minimal double-quote wrapping for the serialized form; escaping inside
the string is not modelled, as no claim depends on the serialized text. -/
def quoteStr (s : String) : String := "\"" ++ s ++ "\""

mutual

/-- JSON.stringify at the value level, parameterized by the host
environment's ISO rendering `isoOf` of a valid Date's timestamp. An Invalid
Date serializes as `null` (its `toJSON` returns `null`); `undefined` at top
level is modelled as `"null"` (dead code: the store only stringifies
non-`undefined` content and objects). -/
def jvalStringify (isoOf : Int → String) : JVal → String
  | JVal.undef => "null"
  | JVal.null => "null"
  | JVal.bool true => "true"
  | JVal.bool false => "false"
  | JVal.num n => toString n
  | JVal.str s => quoteStr s
  | JVal.date (some t) => quoteStr (isoOf t)
  | JVal.date none => "null"
  | JVal.arr es => "[" ++ stringifyElements isoOf es ++ "]"
  | JVal.obj fs => "\x7b" ++ stringifyFields isoOf fs ++ "\x7d"

/-- Array elements in serialized form; an `undefined` element serializes as
`null`. -/
def stringifyElements (isoOf : Int → String) : List JVal → String
  | [] => ""
  | [JVal.undef] => "null"
  | [v] => jvalStringify isoOf v
  | JVal.undef :: rest => "null" ++ "," ++ stringifyElements isoOf rest
  | v :: rest => jvalStringify isoOf v ++ "," ++ stringifyElements isoOf rest

/-- Object fields in serialized form; a field holding `undefined` is
omitted. -/
def stringifyFields (isoOf : Int → String) : List (String × JVal) → String
  | [] => ""
  | (_, JVal.undef) :: fs => stringifyFields isoOf fs
  | (k, v) :: fs =>
      let rest := stringifyFields isoOf fs
      let cur := quoteStr k ++ ":" ++ jvalStringify isoOf v
      if rest = "" then cur else cur ++ "," ++ rest

end

/-- The helper `ensureContentString` (journalStore.ts lines 168-179): a
string passes through, any other value is stringified. The source's
`try`/`catch` fallback to `""` is unreachable in the model: stringification
throws in JavaScript only on circular structures, which the value type
cannot represent. -/
def ensureContentString (isoOf : Int → String) (content : JVal) : String :=
  match content with
  | JVal.str s => s
  | v => jvalStringify isoOf v

/-! ### The updateEntry action -/

/-- A `Partial<JournalEntry>` argument of `updateEntry`. A field set to
`none` is absent from the partial object. Optional entry fields are doubly
optional, `some none` modelling an explicit `undefined`/absence write. The
`content` field may be any JavaScript value: the source normalizes
non-strings with `ensureContentString`. The `updatedAt` field is accepted
but always overwritten with the current time by the action. -/
structure EntryUpdates where
  id : Option String := none
  title : Option String := none
  content : Option JVal := none
  createdAt : Option Timestamp := none
  updatedAt : Option Timestamp := none
  tags : Option (List String) := none
  mood : Option (Option String) := none
  isFavorite : Option Bool := none
  images : Option (List String) := none
  location : Option (Option EntryLocation) := none
  weather : Option (Option EntryWeather) := none
  isDeleted : Option Bool := none
  deletedAt : Option (Option Timestamp) := none

/-- Spreading the processed updates over an entry and then writing a fresh
`updatedAt`, as in the object literal of `updateEntry` (journalStore.ts
line 253). -/
def applyUpdates (isoOf : Int → String) (now : Timestamp) (u : EntryUpdates)
    (entry : JournalEntry) : JournalEntry :=
  { id := u.id.getD entry.id
    title := u.title.getD entry.title
    content := match u.content with
      | some v => ensureContentString isoOf v
      | none => entry.content
    createdAt := u.createdAt.getD entry.createdAt
    updatedAt := now
    tags := u.tags.getD entry.tags
    mood := u.mood.getD entry.mood
    isFavorite := u.isFavorite.getD entry.isFavorite
    images := u.images.getD entry.images
    location := u.location.getD entry.location
    weather := u.weather.getD entry.weather
    isDeleted := u.isDeleted.getD entry.isDeleted
    deletedAt := u.deletedAt.getD entry.deletedAt }

/-- The `updateEntry` action (journalStore.ts lines 243-278): applies the
processed updates and a fresh `updatedAt` to every matching collection entry
and to a matching current-entry copy, and invalidates the tag cache. (The
source's follow-up `getAllMoods()` call on a mood update reads state without
writing it.) -/
def updateEntry (isoOf : Int → String) (now : Timestamp) (id : String)
    (updates : EntryUpdates) (s : TypedState) : TypedState :=
  let updatedEntries := s.entries.map fun entry =>
    if entry.id = id then applyUpdates isoOf now updates entry else entry
  let updatedCurrentEntry :=
    match s.currentEntry with
    | some c => if c.id = id then some (applyUpdates isoOf now updates c) else some c
    | none => none
  { s with entries := updatedEntries,
           currentEntry := updatedCurrentEntry,
           entriesLength := updatedEntries.length,
           cachedTags := none }

/-- A second entry with id `"b"`. -/
def entryB : JournalEntry := { sampleEntry with id := "b" }

/-- A two-entry store with ids `"a"` and `"b"`. -/
def twoEntryState : TypedState := { baseState with entries := [sampleEntry, entryB] }

/-- A soft-deleted variant of the sample entry. -/
def deletedSampleEntry : JournalEntry :=
  { sampleEntry with isDeleted := true, deletedAt := some 3 }

/-- A store whose only entry is soft-deleted and current. -/
def deletedCurrentState : TypedState :=
  { baseState with entries := [deletedSampleEntry],
                   currentEntry := some deletedSampleEntry }

/-! ### Filtering and sorting (EditorWrapper.tsx)

The filtered sidebar view `getFilteredEntries` (EditorWrapper.tsx lines
779-845) and its sorting helper `sortEntries` (lines 847-877). JavaScript
`Array.prototype.sort` with a consistent comparator is modelled as insertion
sort; `toLowerCase` is modelled by `String.toLower`; `localeCompare` is
modelled as code-point comparison — no claim depends on locale specifics. -/

/-- Milliseconds per day (`msPerDay` in the source). -/
def msPerDay : Int := 24 * 60 * 60 * 1000

/-- Truncation of a timestamp to its calendar day (`setHours(0,0,0,0)` and
the year/month/day comparisons of the source), modelled as flooring division
in a fixed-offset timezone. -/
def dayOf (t : Timestamp) : Int := Int.fdiv t msPerDay

/-- Whether the needle matches at the head of the haystack. -/
def matchAt : List Char → List Char → Bool
  | [], _ => true
  | _ :: _, [] => false
  | c :: cs, d :: ds => c == d && matchAt cs ds

/-- Whether the needle occurs contiguously anywhere in the haystack. -/
def hasSubSeq : List Char → List Char → Bool
  | [], needle => needle.isEmpty
  | c :: t, needle => matchAt needle (c :: t) || hasSubSeq t needle

/-- JavaScript `toLowerCase`, modelled on the character sequence (ASCII
lowering; no claim depends on Unicode case folding). -/
def jsToLower (s : String) : List Char := s.data.map Char.toLower

/-- JavaScript `hay.includes(needle)` (substring containment) on character
sequences. -/
def jsIncludes (hay needle : List Char) : Bool := hasSubSeq hay needle

/-- The search predicate of `getFilteredEntries`: title, content or any tag
contains the query, case-insensitively. -/
def matchesSearch (searchQuery : String) (entry : JournalEntry) : Bool :=
  jsIncludes (jsToLower entry.title) (jsToLower searchQuery) ||
  jsIncludes (jsToLower entry.content) (jsToLower searchQuery) ||
  entry.tags.any (fun tag => jsIncludes (jsToLower tag) (jsToLower searchQuery))

/-- The sort key of a deleted entry in the `newest` comparator:
`a.deletedAt ? new Date(a.deletedAt).getTime() : 0`. -/
def deletedSortKey (entry : JournalEntry) : Int := entry.deletedAt.getD 0

/-- The `newest` (default) comparator as an at-most relation (comparator
result is at most zero): within deleted entries descending `deletedAt`,
within non-deleted entries descending `updatedAt`, deleted entries after
non-deleted ones. -/
def newestLe (a b : JournalEntry) : Bool :=
  if a.isDeleted && b.isDeleted then deletedSortKey b ≤ deletedSortKey a
  else if !a.isDeleted && !b.isDeleted then b.updatedAt ≤ a.updatedAt
  else !a.isDeleted

/-- The `sortEntries` helper (EditorWrapper.tsx lines 847-877). -/
def sortEntries (entriesToSort : List JournalEntry) (sortOption : SortOrder) :
    List JournalEntry :=
  match sortOption with
  | SortOrder.oldest =>
      List.insertionSort (fun a b => a.createdAt ≤ b.createdAt) entriesToSort
  | SortOrder.alphabetical =>
      List.insertionSort (fun a b => a.title ≤ b.title) entriesToSort
  | SortOrder.newest =>
      List.insertionSort (fun a b => newestLe a b = true) entriesToSort

/-- The filtered view `getFilteredEntries` (EditorWrapper.tsx lines 779-845):
the base set is selected by view mode; the search filter applies whenever the
query is non-empty; the tag, date and mood filters apply only outside the
deleted view; the result is sorted per the settings' default sort order. -/
def getFilteredEntries (s : TypedState) : List JournalEntry :=
  let result0 := s.entries
  let result1 :=
    match s.viewMode with
    | ViewMode.favorites => result0.filter fun entry => entry.isFavorite && !entry.isDeleted
    | ViewMode.deleted => result0.filter fun entry => entry.isDeleted
    | ViewMode.all => result0.filter fun entry => !entry.isDeleted
  let result2 :=
    if s.searchQuery = "" then result1
    else result1.filter fun entry => matchesSearch s.searchQuery entry
  let result3 :=
    match s.selectedTag with
    | some tag =>
        if tag ≠ "" ∧ s.viewMode ≠ ViewMode.deleted then
          result2.filter fun entry => entry.tags.contains tag
        else result2
    | none => result2
  let result4 :=
    match s.selectedDate with
    | some d =>
        if s.viewMode ≠ ViewMode.deleted then
          result3.filter fun entry => dayOf entry.createdAt = dayOf d
        else result3
    | none => result3
  let result5 :=
    match s.selectedMood with
    | some mood =>
        if mood ≠ "" ∧ s.viewMode ≠ ViewMode.deleted then
          result4.filter fun entry => entry.mood = some mood
        else result4
    | none => result4
  sortEntries result5 s.settings.defaultSortOrder

/-- A deleted-view store with one soft-deleted entry and a search query that
matches nothing. -/
def deletedViewSearchState : TypedState :=
  { baseState with entries := [deletedSampleEntry],
                   viewMode := ViewMode.deleted, searchQuery := "z" }

/-! ### Streak calculation (journalStore.ts lines 584-682) -/

/-- The non-deleted entries (`activeEntries` in `calculateStreak`). -/
def activeEntries (s : TypedState) : List JournalEntry :=
  s.entries.filter fun entry => !entry.isDeleted

/-- The calendar days of the active entries' creation times (the key set of
`entriesByDate`; one ISO day string per truncated date, duplicates in this
list carry no extra information). -/
def activeDays (s : TypedState) : List Int :=
  (activeEntries s).map fun entry => dayOf entry.createdAt

/-- The calendar day of the most recent active entry: the first element of
the descending-by-creation-time sort (`sortedEntries[0]`) attains the
maximum creation time, and truncation is monotone. -/
def lastActiveDay (s : TypedState) : Int :=
  dayOf (((activeEntries s).map fun entry => entry.createdAt).max?.getD 0)

/-- The backward walk of the current-streak loop (journalStore.ts lines
637-647): starting at day `d`, count consecutive days present in `days`.
The source's `while (true)` loop terminates because the day set is finite;
the fuel is instantiated with the number of distinct days, which the count
can never exceed. -/
def countConsecutive (days : List Int) : Nat → Int → Nat
  | 0, _ => 0
  | fuel + 1, d =>
      if d ∈ days then countConsecutive days fuel (d - 1) + 1 else 0

/-- The longest-streak scan (journalStore.ts lines 651-673) over the tail of
the ascending distinct-day list: `streak` is the current run length ending
at `prev`, `longest` the best completed run; at the end the final run is
folded in via `Math.max`. -/
def longestScan : Int → Nat → Nat → List Int → Nat
  | _, longest, streak, [] => max longest streak
  | prev, longest, streak, d :: rest =>
      if d - prev = 1 then longestScan d longest (streak + 1) rest
      else longestScan d (max longest streak) 1 rest

/-- The ascending distinct day list (`dateStrings` sorted; ISO date strings
sort lexicographically in day order). -/
def sortedDateStrings (s : TypedState) : List Int :=
  List.insertionSort (fun a b => a ≤ b) (activeDays s).dedup

/-- The `calculateStreak` action (journalStore.ts lines 584-682), with the
current time `now` passed explicitly. -/
def calculateStreak (now : Timestamp) (s : TypedState) : TypedState :=
  if activeEntries s = [] then
    { s with streakData :=
        { currentStreak := 0, longestStreak := 0, lastEntryDate := none } }
  else
    let lastDay := lastActiveDay s
    let today := dayOf now
    let daysSinceLastEntry := today - lastDay
    let currentStreak :=
      if 1 < daysSinceLastEntry then 0
      else countConsecutive (activeDays s) (activeDays s).dedup.length lastDay
    let longestStreak :=
      match sortedDateStrings s with
      | [] => 0
      | d0 :: rest => longestScan d0 0 1 rest
    { s with streakData :=
        { currentStreak := currentStreak, longestStreak := longestStreak,
          lastEntryDate := some (lastDay * msPerDay) } }

/-- A run of `k` consecutive calendar days ending at day `d`, all present in
the day list. -/
def runEndingAt (days : List Int) (d : Int) (k : Nat) : Prop :=
  ∀ j < k, d - (j : Int) ∈ days

/-- An entry created on calendar day `d` (at local midnight). -/
def entryOnDay (d : Int) (id : String) : JournalEntry :=
  { sampleEntry with id := id, createdAt := d * msPerDay }

/-- Entries on three consecutive days 2, 1, 0 (the D, D-1, D-2 scenario with
D = day 2). -/
def streakState3 : TypedState :=
  { baseState with entries := [entryOnDay 2 "a", entryOnDay 1 "b", entryOnDay 0 "c"] }

/-- Entries on days 2 and 0 only (the D, D-2 gap scenario with D = day 2). -/
def streakStateGap : TypedState :=
  { baseState with entries := [entryOnDay 2 "a", entryOnDay 0 "c"] }

/-! ### Import and export (journalStore.ts lines 684-740)

The import path works on raw parsed values: an imported entry is whatever
object survived structural validation, with its three timestamp fields
coerced to `Date` objects. `newDate` abstracts the host environment's
`new Date(value)` conversion and `isoOf` its ISO rendering of a valid
date's timestamp; no claim depends on either. -/

/-- Store state over raw parsed values, as the import path sees it. -/
abbrev DynState := JournalState JVal

/-- The initial store state (journalStore.ts lines 184-199). -/
def initialState : DynState :=
  { entries := [], currentEntry := none, searchQuery := "", selectedTag := none,
    selectedMood := none, selectedDate := none, isEditing := false,
    cachedTags := none, entriesLength := 0, viewMode := ViewMode.all,
    settings := DEFAULT_SETTINGS,
    streakData := { currentStreak := 0, longestStreak := 0, lastEntryDate := none } }

/-- The helper `isValidJournalEntry` (journalStore.ts lines 156-165):
minimal structural validation — the value is a non-null object and its
`id`, `title` and `content` properties are strings. -/
def isValidJournalEntry (e : JVal) : Bool :=
  isObjectType e && !e.isNull && (getField e "id").isStr &&
    (getField e "title").isStr && (getField e "content").isStr

/-- The per-entry date processing of `importEntries` (journalStore.ts lines
705-724): `createdAt`/`updatedAt` pass through when already `Date` objects
and are otherwise coerced with `new Date(...)`; `deletedAt` is coerced when
truthy and set to `undefined` otherwise. -/
def processEntry (newDate : JVal → Option Int) (entry : JVal) : JVal :=
  let cd := getField entry "createdAt"
  let ud := getField entry "updatedAt"
  let dd := getField entry "deletedAt"
  let cd2 := match cd with
    | JVal.date t => JVal.date t
    | v => JVal.date (newDate v)
  let ud2 := match ud with
    | JVal.date t => JVal.date t
    | v => JVal.date (newDate v)
  let dd2 := if truthy dd then JVal.date (newDate dd) else JVal.undef
  setField (setField (setField entry "createdAt" cd2) "updatedAt" ud2)
    "deletedAt" dd2

/-- The `importEntries` action (journalStore.ts lines 689-740) at the level
of the parsed value: `parseResult` is `none` when `JSON.parse` threw, and a
parsed `null`/`undefined` makes the `entries` property access throw — both
exceptions land in the `catch`, which returns `false` without mutating
anything, so no exception ever escapes to the caller. -/
def importEntries (newDate : JVal → Option Int) (parseResult : Option JVal)
    (s : DynState) : Bool × DynState :=
  match parseResult with
  | none => (false, s)
  | some JVal.null => (false, s)
  | some JVal.undef => (false, s)
  | some parsed =>
      let f := getField parsed "entries"
      if !(truthy f) || !(f.isArray) then (false, s)
      else
        let validEntries := f.elements.filter isValidJournalEntry
        if validEntries.length = 0 then (false, s)
        else
          let processedEntries := validEntries.map (processEntry newDate)
          (true,
            { s with entries := processedEntries ++ s.entries,
                     entriesLength := s.entries.length + processedEntries.length,
                     cachedTags := none })

/-- The guard of `importEntries` as a partial accessor: the parsed entries
array, when parsing succeeded, the value is not nullish, and its `entries`
property is a (necessarily truthy) array. -/
def entriesArrayOf (parseResult : Option JVal) : Option (List JVal) :=
  match parseResult with
  | none => none
  | some JVal.null => none
  | some JVal.undef => none
  | some parsed =>
      let f := getField parsed "entries"
      if truthy f && f.isArray then some f.elements else none

/-- The JSON value serialized by `exportEntries` (journalStore.ts lines
684-687): an object with the single key `entries` holding the entire
collection, deleted entries included, with no filtering. -/
def exportValue (s : DynState) : JVal :=
  JVal.obj [("entries", JVal.arr s.entries)]

/-- The serialized export text (pretty-printing whitespace not modelled). -/
def exportEntries (isoOf : Int → String) (s : DynState) : String :=
  jvalStringify isoOf (exportValue s)

mutual

/-- The value `JSON.parse` yields on the `JSON.stringify` serialization of a
value whose objects have distinct keys (`JSON.parse` results always do):
dates collapse to their ISO string — `null` for an Invalid Date — object
fields holding `undefined` are dropped, and array elements holding
`undefined` become `null`. A top-level `undefined` is modelled as `null`
(dead code: the export value is an object). -/
def reparse (isoOf : Int → String) : JVal → JVal
  | JVal.undef => JVal.null
  | JVal.null => JVal.null
  | JVal.bool b => JVal.bool b
  | JVal.num n => JVal.num n
  | JVal.str s => JVal.str s
  | JVal.date (some t) => JVal.str (isoOf t)
  | JVal.date none => JVal.null
  | JVal.arr es => JVal.arr (reparseElements isoOf es)
  | JVal.obj fs => JVal.obj (reparseFields isoOf fs)

/-- Round trip of an array's elements. -/
def reparseElements (isoOf : Int → String) : List JVal → List JVal
  | [] => []
  | JVal.undef :: rest => JVal.null :: reparseElements isoOf rest
  | v :: rest => reparse isoOf v :: reparseElements isoOf rest

/-- Round trip of an object's fields. -/
def reparseFields (isoOf : Int → String) :
    List (String × JVal) → List (String × JVal)
  | [] => []
  | (_, JVal.undef) :: fs => reparseFields isoOf fs
  | (k, v) :: fs => (k, reparse isoOf v) :: reparseFields isoOf fs

end

mutual

/-- Whether a value is a possible `JSON.parse` result: no `undefined`, no
`Date` objects, and every object has distinct keys. On such values the
`reparse` model is faithful to `JSON.parse` after `JSON.stringify`. -/
def isParseValue : JVal → Bool
  | JVal.undef => false
  | JVal.date _ => false
  | JVal.null => true
  | JVal.bool _ => true
  | JVal.num _ => true
  | JVal.str _ => true
  | JVal.arr es => isParseList es
  | JVal.obj fs => decide ((fs.map Prod.fst).Nodup) && isParseFields fs

/-- Parse-result check for array elements. -/
def isParseList : List JVal → Bool
  | [] => true
  | v :: vs => isParseValue v && isParseList vs

/-- Parse-result check for object fields. -/
def isParseFields : List (String × JVal) → Bool
  | [] => true
  | (_, v) :: fs => isParseValue v && isParseFields fs

end

/-- A minimal structurally valid import entry. -/
def sampleImportEntry : JVal :=
  JVal.obj [("id", JVal.str "x"), ("title", JVal.str "t"), ("content", JVal.str "c")]

/-- An import document with a single valid entry. -/
def sampleImportValue : JVal :=
  JVal.obj [("entries", JVal.arr [sampleImportEntry])]

/-! ### Claims C8 and C9 -/

/-- C8: For every entry id in the collection, `toggleFavorite id` flips that
entry's `isFavorite` flag and changes nothing else: every other field of
every entry (in particular `updatedAt`) is untouched, entries with a
different id are untouched, the cached tag list is not invalidated, no other
store state field changes, and a matching current-entry copy has exactly its
`isFavorite` flag flipped. -/
theorem toggleFavorite_flips_only_favorite (id : String) (s : TypedState)
    (hmem : ∃ e ∈ s.entries, e.id = id) :
    (toggleFavorite id s).entries.length = s.entries.length ∧
    (∀ i (hi : i < s.entries.length) (hi' : i < (toggleFavorite id s).entries.length),
      ((toggleFavorite id s).entries[i].id = s.entries[i].id ∧
       (toggleFavorite id s).entries[i].title = s.entries[i].title ∧
       (toggleFavorite id s).entries[i].content = s.entries[i].content ∧
       (toggleFavorite id s).entries[i].createdAt = s.entries[i].createdAt ∧
       (toggleFavorite id s).entries[i].updatedAt = s.entries[i].updatedAt ∧
       (toggleFavorite id s).entries[i].tags = s.entries[i].tags ∧
       (toggleFavorite id s).entries[i].mood = s.entries[i].mood ∧
       (toggleFavorite id s).entries[i].images = s.entries[i].images ∧
       (toggleFavorite id s).entries[i].location = s.entries[i].location ∧
       (toggleFavorite id s).entries[i].weather = s.entries[i].weather ∧
       (toggleFavorite id s).entries[i].isDeleted = s.entries[i].isDeleted ∧
       (toggleFavorite id s).entries[i].deletedAt = s.entries[i].deletedAt) ∧
      (s.entries[i].id = id →
        (toggleFavorite id s).entries[i].isFavorite = !s.entries[i].isFavorite) ∧
      (s.entries[i].id ≠ id →
        (toggleFavorite id s).entries[i] = s.entries[i])) ∧
    (toggleFavorite id s).cachedTags = s.cachedTags ∧
    (toggleFavorite id s).searchQuery = s.searchQuery ∧
    (toggleFavorite id s).selectedTag = s.selectedTag ∧
    (toggleFavorite id s).selectedMood = s.selectedMood ∧
    (toggleFavorite id s).selectedDate = s.selectedDate ∧
    (toggleFavorite id s).isEditing = s.isEditing ∧
    (toggleFavorite id s).entriesLength = s.entriesLength ∧
    (toggleFavorite id s).viewMode = s.viewMode ∧
    (toggleFavorite id s).settings = s.settings ∧
    (toggleFavorite id s).streakData = s.streakData ∧
    (∀ c, s.currentEntry = some c → c.id = id →
      (toggleFavorite id s).currentEntry = some { c with isFavorite := !c.isFavorite }) := by
  refine ⟨by simp [toggleFavorite], ?_, by simp [toggleFavorite], by simp [toggleFavorite],
    by simp [toggleFavorite], by simp [toggleFavorite], by simp [toggleFavorite],
    by simp [toggleFavorite], by simp [toggleFavorite], by simp [toggleFavorite],
    by simp [toggleFavorite], by simp [toggleFavorite], ?_⟩
  · intro i hi hi'
    by_cases h : s.entries[i].id = id <;>
      simp [toggleFavorite, h]
  · intro c hc hcid
    simp [toggleFavorite, hc, hcid]

/-- C8 witness at a concrete one-entry store. -/
theorem toggleFavorite_flips_only_favorite_witness :
    (∃ e ∈ ([{ id := "a", title := "t", content := "", createdAt := 0,
               updatedAt := 7, tags := [], mood := none, isFavorite := false,
               images := [], location := none, weather := none,
               isDeleted := false, deletedAt := none : JournalEntry }] :
              List JournalEntry), e.id = "a") ∧
    (toggleFavorite "a"
      { entries := [{ id := "a", title := "t", content := "", createdAt := 0,
                      updatedAt := 7, tags := [], mood := none, isFavorite := false,
                      images := [], location := none, weather := none,
                      isDeleted := false, deletedAt := none }],
        currentEntry := none, searchQuery := "", selectedTag := none,
        selectedMood := none, selectedDate := none, isEditing := false,
        cachedTags := none, entriesLength := 1, viewMode := ViewMode.all,
        settings := DEFAULT_SETTINGS,
        streakData := { currentStreak := 0, longestStreak := 0, lastEntryDate := none } }).entries.length =
      ([{ id := "a", title := "t", content := "", createdAt := 0,
          updatedAt := 7, tags := [], mood := none, isFavorite := false,
          images := [], location := none, weather := none,
          isDeleted := false, deletedAt := none : JournalEntry }] :
         List JournalEntry).length :=
  ⟨by decide,
   (toggleFavorite_flips_only_favorite "a"
     { entries := [{ id := "a", title := "t", content := "", createdAt := 0,
                     updatedAt := 7, tags := [], mood := none, isFavorite := false,
                     images := [], location := none, weather := none,
                     isDeleted := false, deletedAt := none }],
       currentEntry := none, searchQuery := "", selectedTag := none,
       selectedMood := none, selectedDate := none, isEditing := false,
       cachedTags := none, entriesLength := 1, viewMode := ViewMode.all,
       settings := DEFAULT_SETTINGS,
       streakData := { currentStreak := 0, longestStreak := 0, lastEntryDate := none } }
     ⟨_, List.mem_singleton.mpr rfl, rfl⟩).1⟩

/-- C9: When the current entry refers to the id being restored (and is marked
deleted, as in the stale-bin scenario), `restoreEntry` clears the soft-delete
mark on the collection copy but leaves `currentEntry` completely unchanged,
so the duplicated current-entry copy still carries `isDeleted = true` and is
out of sync with the canonical collection. -/
theorem restoreEntry_leaves_currentEntry_stale (id : String) (s : TypedState)
    (c : JournalEntry) (hc : s.currentEntry = some c) (hcid : c.id = id)
    (hdel : c.isDeleted = true) (hmem : ∃ e ∈ s.entries, e.id = id) :
    (restoreEntry id s).currentEntry = some c ∧
    c.isDeleted = true ∧
    (∃ e' ∈ (restoreEntry id s).entries,
       e'.id = id ∧ e'.isDeleted = false ∧ e'.deletedAt = none) ∧
    (∀ i (hi : i < s.entries.length) (hi' : i < (restoreEntry id s).entries.length),
      (s.entries[i].id = id →
        (restoreEntry id s).entries[i] =
          { s.entries[i] with isDeleted := false, deletedAt := none }) ∧
      (s.entries[i].id ≠ id →
        (restoreEntry id s).entries[i] = s.entries[i])) := by
  refine ⟨by simp [restoreEntry, hc], hdel, ?_, ?_⟩
  · obtain ⟨e, he, heid⟩ := hmem
    refine ⟨{ e with isDeleted := false, deletedAt := none }, ?_, heid, rfl, rfl⟩
    have h := List.mem_map_of_mem
      (f := fun entry =>
        if entry.id = id then { entry with isDeleted := false, deletedAt := none }
        else entry) he
    simpa [restoreEntry, heid] using h
  · intro i hi hi'
    by_cases h : s.entries[i].id = id <;> simp [restoreEntry, h]

/-- Auxiliary: an element returned by `List.find?` sits at a position before
which no element satisfies the predicate. -/
theorem find?_first_position {α : Type} (p : α → Bool) (l : List α) (a : α)
    (h : l.find? p = some a) :
    ∃ i, ∃ hi : i < l.length, l.get ⟨i, hi⟩ = a ∧ p a = true ∧
      ∀ j (hj : j < l.length), j < i → p (l.get ⟨j, hj⟩) = false := by
  induction l with
  | nil => simp at h
  | cons hd tl ih =>
    by_cases hp : p hd = true
    · rw [List.find?_cons_of_pos _ hp] at h
      refine ⟨0, by simp, ?_, ?_, ?_⟩
      · simpa using Option.some.inj h
      · cases Option.some.inj h; exact hp
      · intro j hj hj0; omega
    · rw [List.find?_cons_of_neg _ hp] at h
      obtain ⟨i, hi, hget, hpa, hfirst⟩ := ih h
      refine ⟨i + 1, by simpa using Nat.succ_lt_succ hi, by simpa using hget, hpa, ?_⟩
      intro j hj hlt
      cases j with
      | zero => simpa using hp
      | succ j' =>
        have hj' : j' < tl.length := by simpa using Nat.lt_of_succ_lt_succ hj
        have := hfirst j' hj' (Nat.lt_of_succ_lt_succ hlt)
        simpa using this

/-- Auxiliary: removing one element at an index at least the list's length is
the identity (JavaScript `splice(start, 1)` with `start >= length`). -/
theorem spliceRemoveOne_oob (l : List String) (i : Int)
    (h : (l.length : Int) ≤ i) : spliceRemoveOne l i = l := by
  have h0 : ¬ i < 0 := by
    have : (0 : Int) ≤ (l.length : Int) := Int.natCast_nonneg _
    omega
  have hmin : min i (l.length : Int) = (l.length : Int) := min_eq_right h
  simp only [spliceRemoveOne]
  rw [if_neg h0, hmin]
  simp [List.drop_eq_nil_of_le]

/-- C10: When the index is at least the number of images of the entry found
for the given id, `removeImageFromEntry` leaves every image list unchanged in
value, yet still rewrites the matching entries with a fresh `updatedAt`: in
particular the found entry's slot now carries `updatedAt = now` with its
images intact. -/
theorem removeImageFromEntry_oob_bumps_updatedAt (now : Timestamp) (id : String)
    (idx : Int) (s : TypedState) (e : JournalEntry)
    (hfind : s.entries.find? (fun x => x.id = id) = some e)
    (hidx : (e.images.length : Int) ≤ idx) :
    (removeImageFromEntry now id idx s).entries =
      s.entries.map (fun x =>
        if x.id = id then { x with images := e.images, updatedAt := now } else x) ∧
    ∀ i (hi : i < s.entries.length)
      (hi' : i < (removeImageFromEntry now id idx s).entries.length),
      s.entries.get ⟨i, hi⟩ = e →
      (removeImageFromEntry now id idx s).entries.get ⟨i, hi'⟩ =
        { e with updatedAt := now } := by
  have heid : e.id = id := by
    have := List.find?_some hfind
    simpa using this
  have hentries : (removeImageFromEntry now id idx s).entries =
      s.entries.map (fun x =>
        if x.id = id then { x with images := e.images, updatedAt := now } else x) := by
    unfold removeImageFromEntry
    rw [hfind]
    simp only
    rw [spliceRemoveOne_oob e.images idx hidx]
  refine ⟨hentries, ?_⟩
  intro i hi hi' hie
  have : (removeImageFromEntry now id idx s).entries.get ⟨i, hi'⟩ =
      (fun x => if x.id = id then { x with images := e.images, updatedAt := now } else x)
        (s.entries.get ⟨i, hi⟩) := by
    simp only [List.get_eq_getElem]
    rw [List.getElem_of_eq hentries, List.getElem_map]
  rw [this, hie]
  simp [heid]

/-- C5 counterexample: a negative out-of-range index is not a no-op — with a
single image and index `-1`, JavaScript `splice` counts from the end and
removes the last image. -/
theorem removeImageFromEntry_negative_index_removes :
    sampleEntry.images = ["img"] ∧
    ((-1 : Int) < 0) ∧
    (removeImageFromEntry 99 "a" (-1)
        { baseState with entries := [sampleEntry], entriesLength := 1 }).entries.map
      (fun x => x.images) = [[]] := by
  decide

/-- C5 (amended): for a non-negative out-of-range index — at least the length
of the found entry's image list — `removeImageFromEntry` leaves every entry's
image list unchanged and every entry's id unchanged (and, being a total
function, cannot throw). Negative indices are excluded: JavaScript `splice`
interprets them as counting from the end. -/
theorem removeImageFromEntry_oob_noop_on_images (now : Timestamp) (id : String)
    (idx : Int) (s : TypedState) (e : JournalEntry)
    (hnodup : (s.entries.map (fun x => x.id)).Nodup)
    (hfind : s.entries.find? (fun x => x.id = id) = some e)
    (hidx : (e.images.length : Int) ≤ idx) :
    (removeImageFromEntry now id idx s).entries.map (fun x => x.images) =
      s.entries.map (fun x => x.images) := by
  have heid : e.id = id := by
    have := List.find?_some hfind
    simpa using this
  have hmem : e ∈ s.entries := List.mem_of_find?_eq_some hfind
  have hentries := (removeImageFromEntry_oob_bumps_updatedAt now id idx s e hfind hidx).1
  rw [hentries, List.map_map]
  apply List.map_congr_left
  intro a ha
  by_cases h : a.id = id
  · have : a = e := by
      apply List.inj_on_of_nodup_map hnodup ha hmem
      rw [h, heid]
    simp [this, heid]
  · simp [h]

/-- C10 witness: a one-entry store, id `"a"`, index `5` past the single image. -/
theorem removeImageFromEntry_oob_bumps_updatedAt_witness :
    ({ baseState with entries := [sampleEntry] } :
        TypedState).entries.find? (fun x => x.id = "a") = some sampleEntry ∧
    (sampleEntry.images.length : Int) ≤ 5 ∧
    (removeImageFromEntry 99 "a" 5
        { baseState with entries := [sampleEntry] }).entries =
      ({ baseState with entries := [sampleEntry] } : TypedState).entries.map (fun x =>
        if x.id = "a" then
          { x with images := sampleEntry.images, updatedAt := 99 } else x) :=
  ⟨by decide, by decide,
   (removeImageFromEntry_oob_bumps_updatedAt 99 "a" 5
     { baseState with entries := [sampleEntry] } sampleEntry
     (by decide) (by decide)).1⟩

/-- C5 witness: with distinct ids and a non-negative out-of-range index the
image lists are untouched. -/
theorem removeImageFromEntry_oob_noop_on_images_witness :
    (({ baseState with entries := [sampleEntry] } :
        TypedState).entries.map (fun x => x.id)).Nodup ∧
    ({ baseState with entries := [sampleEntry] } :
        TypedState).entries.find? (fun x => x.id = "a") = some sampleEntry ∧
    (sampleEntry.images.length : Int) ≤ 5 ∧
    (removeImageFromEntry 99 "a" 5
        { baseState with entries := [sampleEntry] }).entries.map (fun x => x.images) =
      ({ baseState with entries := [sampleEntry] } :
        TypedState).entries.map (fun x => x.images) :=
  ⟨by decide, by decide, by decide,
   removeImageFromEntry_oob_noop_on_images 99 "a" 5
     { baseState with entries := [sampleEntry] } sampleEntry
     (by decide) (by decide) (by decide)⟩

/-- C7: soft delete marks every matching entry deleted with `deletedAt = now`
and leaves the others alone; when the deleted entry was current, the new
current entry is the first non-deleted entry of the updated collection (in
collection order) or `none` when every remaining entry is deleted; a
non-matching or absent current entry is untouched. -/
theorem deleteEntry_spec (now : Timestamp) (id : String) (s : TypedState)
    (hmem : ∃ e ∈ s.entries, e.id = id) :
    (deleteEntry now id s).entries.length = s.entries.length ∧
    (∀ i (hi : i < s.entries.length) (hi' : i < (deleteEntry now id s).entries.length),
      ((s.entries.get ⟨i, hi⟩).id = id →
        (deleteEntry now id s).entries.get ⟨i, hi'⟩ =
          { s.entries.get ⟨i, hi⟩ with isDeleted := true, deletedAt := some now }) ∧
      ((s.entries.get ⟨i, hi⟩).id ≠ id →
        (deleteEntry now id s).entries.get ⟨i, hi'⟩ = s.entries.get ⟨i, hi⟩)) ∧
    (∀ c, s.currentEntry = some c → c.id = id →
      ((deleteEntry now id s).currentEntry = none →
        ∀ e ∈ (deleteEntry now id s).entries, e.isDeleted = true) ∧
      (∀ c', (deleteEntry now id s).currentEntry = some c' →
        c'.isDeleted = false ∧
        ∃ i, ∃ hi : i < (deleteEntry now id s).entries.length,
          (deleteEntry now id s).entries.get ⟨i, hi⟩ = c' ∧
          ∀ j (hj : j < (deleteEntry now id s).entries.length), j < i →
            ((deleteEntry now id s).entries.get ⟨j, hj⟩).isDeleted = true)) ∧
    (∀ c, s.currentEntry = some c → c.id ≠ id →
      (deleteEntry now id s).currentEntry = some c) ∧
    (s.currentEntry = none → (deleteEntry now id s).currentEntry = none) := by
  refine ⟨by simp [deleteEntry], ?_, ?_, ?_, ?_⟩
  · intro i hi hi'
    constructor
    · intro h
      simp only [List.get_eq_getElem] at h ⊢
      simp [deleteEntry, h]
    · intro h
      simp only [List.get_eq_getElem, ne_eq] at h ⊢
      simp [deleteEntry, h]
  · intro c hc hcid
    have hcur : (deleteEntry now id s).currentEntry =
        (s.entries.map (fun entry =>
          if entry.id = id then
            { entry with isDeleted := true, deletedAt := some now }
          else entry)).find? (fun entry => !entry.isDeleted) := by
      simp [deleteEntry, hc, hcid]
    have hent : (deleteEntry now id s).entries =
        s.entries.map (fun entry =>
          if entry.id = id then
            { entry with isDeleted := true, deletedAt := some now }
          else entry) := rfl
    constructor
    · intro hnone e he
      rw [hcur, List.find?_eq_none] at hnone
      have := hnone e (by rw [← hent]; exact he)
      simpa using this
    · intro c' hc'
      rw [hcur] at hc'
      have hprop := List.find?_some hc'
      have hdel : c'.isDeleted = false := by simpa using hprop
      refine ⟨hdel, ?_⟩
      obtain ⟨i, hi, hget, hpa, hfirst⟩ := find?_first_position _ _ _ hc'
      refine ⟨i, by rw [hent]; exact hi, ?_, ?_⟩
      · rw [← hget]
        simp [hent]
      · intro j hj hlt
        have hj2 : j < (s.entries.map (fun entry =>
            if entry.id = id then
              { entry with isDeleted := true, deletedAt := some now }
            else entry)).length := by rw [← hent]; exact hj
        have := hfirst j hj2 hlt
        have hget2 : (deleteEntry now id s).entries.get ⟨j, hj⟩ =
            (s.entries.map (fun entry =>
              if entry.id = id then
                { entry with isDeleted := true, deletedAt := some now }
              else entry)).get ⟨j, hj2⟩ := by
          simp [hent]
        rw [hget2]
        simpa using this
  · intro c hc hcid
    simp [deleteEntry, hc, hcid]
  · intro hc
    simp [deleteEntry, hc]

/-- C7 witness: the spec scenario — the only entry is current; deleting it
leaves no non-deleted entry, and indeed the current entry becomes null. -/
theorem deleteEntry_spec_witness :
    (∃ e ∈ singleEntryState.entries, e.id = "a") ∧
    (deleteEntry 5 "a" singleEntryState).currentEntry = none ∧
    ∀ e ∈ (deleteEntry 5 "a" singleEntryState).entries, e.isDeleted = true :=
  ⟨⟨sampleEntry, by decide, rfl⟩, by decide,
   ((deleteEntry_spec 5 "a" singleEntryState
      ⟨sampleEntry, by decide, rfl⟩).2.2.1 sampleEntry rfl rfl).1 (by decide)⟩

/-- C9 witness: the only entry is soft-deleted and current; restoring it
leaves the stale deleted copy as the current entry. -/
theorem restoreEntry_leaves_currentEntry_stale_witness :
    deletedCurrentState.currentEntry = some deletedSampleEntry ∧
    deletedSampleEntry.id = "a" ∧
    deletedSampleEntry.isDeleted = true ∧
    (∃ e ∈ deletedCurrentState.entries, e.id = "a") ∧
    (restoreEntry "a" deletedCurrentState).currentEntry = some deletedSampleEntry :=
  ⟨rfl, rfl, rfl, ⟨deletedSampleEntry, by decide, rfl⟩,
   (restoreEntry_leaves_currentEntry_stale "a" deletedCurrentState
     deletedSampleEntry rfl rfl rfl ⟨deletedSampleEntry, by decide, rfl⟩).1⟩

/-- C6 counterexample: `updateEntry` with a partial-fields argument that
contains an `id` field rewrites the matched entry's identifier and can
collide it with another entry's, breaking uniqueness. -/
theorem updateEntry_can_change_and_collide_ids :
    twoEntryState.entries.map (fun e => e.id) = ["a", "b"] ∧
    (twoEntryState.entries.map (fun e => e.id)).Nodup ∧
    (updateEntry (fun _ => "") 7 "a" { id := some "b" }
        twoEntryState).entries.map (fun e => e.id) = ["b", "b"] ∧
    ¬ ((updateEntry (fun _ => "") 7 "a" { id := some "b" }
        twoEntryState).entries.map (fun e => e.id)).Nodup := by
  refine ⟨rfl, by decide, rfl, by decide⟩

/-- C6 (amended): no collection operation changes the identifier of an entry
that remains in the collection — `updateEntry` preserves the id list whenever
its partial-fields argument does not include the `id` field, the other
per-entry mutations preserve the id list unconditionally, and the purging
operations only drop ids — hence all of them preserve uniqueness of ids.
(`updateEntry` with an explicit `id` field, and `importEntries`, can break
these properties; see the counterexample and the import claims.) -/
theorem collection_ops_preserve_ids (isoOf : Int → String) (now : Timestamp)
    (id : String) (u : EntryUpdates) (idx : Int) (img : String)
    (loc : Option EntryLocation) (w : Option EntryWeather) (s : TypedState)
    (hid : u.id = none) :
    (updateEntry isoOf now id u s).entries.map (fun e => e.id) =
      s.entries.map (fun e => e.id) ∧
    (deleteEntry now id s).entries.map (fun e => e.id) =
      s.entries.map (fun e => e.id) ∧
    (restoreEntry id s).entries.map (fun e => e.id) =
      s.entries.map (fun e => e.id) ∧
    (toggleFavorite id s).entries.map (fun e => e.id) =
      s.entries.map (fun e => e.id) ∧
    (removeImageFromEntry now id idx s).entries.map (fun e => e.id) =
      s.entries.map (fun e => e.id) ∧
    (addImageToEntry now id img s).entries.map (fun e => e.id) =
      s.entries.map (fun e => e.id) ∧
    (updateEntryLocation now id loc s).entries.map (fun e => e.id) =
      s.entries.map (fun e => e.id) ∧
    (updateEntryWeather now id w s).entries.map (fun e => e.id) =
      s.entries.map (fun e => e.id) ∧
    ((permanentlyDeleteEntry id s).entries.map (fun e => e.id)).Sublist
      (s.entries.map (fun e => e.id)) ∧
    ((emptyBin s).entries.map (fun e => e.id)).Sublist
      (s.entries.map (fun e => e.id)) ∧
    ((s.entries.map (fun e => e.id)).Nodup →
      ((updateEntry isoOf now id u s).entries.map (fun e => e.id)).Nodup ∧
      ((permanentlyDeleteEntry id s).entries.map (fun e => e.id)).Nodup ∧
      ((emptyBin s).entries.map (fun e => e.id)).Nodup) := by
  have hupd : (updateEntry isoOf now id u s).entries.map (fun e => e.id) =
      s.entries.map (fun e => e.id) := by
    show (s.entries.map _).map _ = _
    rw [List.map_map]
    apply List.map_congr_left
    intro a _
    by_cases h : a.id = id <;> simp [h, applyUpdates, hid]
  have hperm : ((permanentlyDeleteEntry id s).entries.map (fun e => e.id)).Sublist
      (s.entries.map (fun e => e.id)) :=
    List.Sublist.map _ (List.filter_sublist s.entries)
  have hbin : ((emptyBin s).entries.map (fun e => e.id)).Sublist
      (s.entries.map (fun e => e.id)) :=
    List.Sublist.map _ (List.filter_sublist s.entries)
  refine ⟨hupd, ?_, ?_, ?_, ?_, ?_, ?_, ?_, hperm, hbin, ?_⟩
  · show (s.entries.map _).map _ = _
    rw [List.map_map]
    apply List.map_congr_left
    intro a _
    by_cases h : a.id = id <;> simp [h]
  · show (s.entries.map _).map _ = _
    rw [List.map_map]
    apply List.map_congr_left
    intro a _
    by_cases h : a.id = id <;> simp [h]
  · show (s.entries.map _).map _ = _
    rw [List.map_map]
    apply List.map_congr_left
    intro a _
    by_cases h : a.id = id <;> simp [h]
  · cases hfind : s.entries.find? (fun e => e.id = id) with
    | none => simp [removeImageFromEntry, hfind]
    | some e =>
      show ((removeImageFromEntry now id idx s).entries.map (fun e => e.id)) = _
      have : (removeImageFromEntry now id idx s).entries =
          s.entries.map (fun x =>
            if x.id = id then
              { x with images := spliceRemoveOne e.images idx, updatedAt := now }
            else x) := by
        simp [removeImageFromEntry, hfind]
      rw [this, List.map_map]
      apply List.map_congr_left
      intro a _
      by_cases h : a.id = id <;> simp [h]
  · show (s.entries.map _).map _ = _
    rw [List.map_map]
    apply List.map_congr_left
    intro a _
    by_cases h : a.id = id <;> simp [h]
  · show (s.entries.map _).map _ = _
    rw [List.map_map]
    apply List.map_congr_left
    intro a _
    by_cases h : a.id = id <;> simp [h]
  · show (s.entries.map _).map _ = _
    rw [List.map_map]
    apply List.map_congr_left
    intro a _
    by_cases h : a.id = id <;> simp [h]
  · intro hnd
    exact ⟨hupd ▸ hnd, hnd.sublist hperm, hnd.sublist hbin⟩

/-- C6 (amended) witness at the two-entry store with an id-free update. -/
theorem collection_ops_preserve_ids_witness :
    ({ title := some "new" : EntryUpdates }.id = none) ∧
    (updateEntry (fun _ => "") 7 "a" { title := some "new" }
        twoEntryState).entries.map (fun e => e.id) =
      twoEntryState.entries.map (fun e => e.id) :=
  ⟨rfl,
   (collection_ops_preserve_ids (fun _ => "") 7 "a" { title := some "new" }
     0 "" none none twoEntryState rfl).1⟩

/-- Auxiliary: sorting does not change membership. -/
theorem mem_sortEntries (l : List JournalEntry) (o : SortOrder)
    (x : JournalEntry) : x ∈ sortEntries l o ↔ x ∈ l := by
  cases o <;>
    exact (List.perm_insertionSort _ l).mem_iff

/-- C4 counterexample: in the deleted view, a soft-deleted entry whose
title, content and tags do not contain the search query is filtered out —
the search filter is not suppressed. -/
theorem deleted_view_not_search_free :
    deletedSampleEntry.isDeleted = true ∧
    deletedViewSearchState.viewMode = ViewMode.deleted ∧
    deletedSampleEntry ∈ deletedViewSearchState.entries ∧
    deletedSampleEntry ∉ getFilteredEntries deletedViewSearchState := by
  refine ⟨rfl, rfl, by decide, by decide⟩

/-- C4 (amended): in the deleted view the filtered list contains exactly the
soft-deleted entries matching the search filter (every soft-deleted entry
when the query is empty); the tag, date and mood filters are suppressed,
but the search filter is not. -/
theorem deleted_view_membership (s : TypedState)
    (hview : s.viewMode = ViewMode.deleted) (e : JournalEntry) :
    e ∈ getFilteredEntries s ↔
      e ∈ s.entries ∧ e.isDeleted = true ∧
        (s.searchQuery ≠ "" → matchesSearch s.searchQuery e = true) := by
  unfold getFilteredEntries
  rw [hview]
  simp only []
  rw [mem_sortEntries]
  cases htag : s.selectedTag <;> cases hdate : s.selectedDate <;>
    cases hmood : s.selectedMood <;>
    by_cases hq : s.searchQuery = "" <;>
    simp [hq, List.mem_filter, and_assoc, and_comm]

/-- C4 witness applying the membership characterization at a concrete
deleted-view store. -/
theorem deleted_view_membership_witness :
    deletedViewSearchState.viewMode = ViewMode.deleted ∧
    (deletedSampleEntry ∈ getFilteredEntries deletedViewSearchState ↔
      deletedSampleEntry ∈ deletedViewSearchState.entries ∧
        deletedSampleEntry.isDeleted = true ∧
        (deletedViewSearchState.searchQuery ≠ "" →
          matchesSearch deletedViewSearchState.searchQuery deletedSampleEntry = true)) :=
  ⟨rfl, deleted_view_membership deletedViewSearchState rfl deletedSampleEntry⟩

/-! ### Streak lemmas -/

/-- The backward walk only counts days present in the set. -/
theorem countConsecutive_run (days : List Int) :
    ∀ (fuel : Nat) (d : Int), runEndingAt days d (countConsecutive days fuel d) := by
  intro fuel
  induction fuel with
  | zero => intro d j hj; simp [countConsecutive] at hj
  | succ n ih =>
    intro d j hj
    rw [countConsecutive] at hj
    by_cases hd : d ∈ days
    · rw [if_pos hd] at hj
      cases j with
      | zero => simpa using hd
      | succ j' =>
        have hj' : j' < countConsecutive days n (d - 1) := by omega
        have := ih (d - 1) j' hj'
        have harith : d - ((j' + 1 : Nat) : Int) = d - 1 - (j' : Int) := by
          push_cast
          ring
        rw [harith]
        exact this
    · rw [if_neg hd] at hj
      omega

/-- The backward walk never counts more than its fuel. -/
theorem countConsecutive_le_fuel (days : List Int) :
    ∀ (fuel : Nat) (d : Int), countConsecutive days fuel d ≤ fuel := by
  intro fuel
  induction fuel with
  | zero => intro d; simp [countConsecutive]
  | succ n ih =>
    intro d
    rw [countConsecutive]
    by_cases hd : d ∈ days
    · rw [if_pos hd]
      have := ih (d - 1)
      omega
    · rw [if_neg hd]
      omega

/-- If the walk stops with fuel to spare, the next day is absent. -/
theorem countConsecutive_stop (days : List Int) :
    ∀ (fuel : Nat) (d : Int), countConsecutive days fuel d < fuel →
      d - (countConsecutive days fuel d : Int) ∉ days := by
  intro fuel
  induction fuel with
  | zero => intro d h; omega
  | succ n ih =>
    intro d h
    rw [countConsecutive] at h ⊢
    by_cases hd : d ∈ days
    · rw [if_pos hd] at h ⊢
      have hlt : countConsecutive days n (d - 1) < n := by omega
      have := ih (d - 1) hlt
      intro hmem
      apply this
      have harith : d - 1 - (countConsecutive days n (d - 1) : Int) =
          d - ((countConsecutive days n (d - 1) + 1 : Nat) : Int) := by
        push_cast
        ring
      rw [harith]
      exact hmem
    · rw [if_neg hd]
      simpa using hd

/-- With fuel equal to the number of distinct days, the day after the walk
is always absent: either the walk stopped at a gap, or it exhausted every
distinct day. -/
theorem countConsecutive_boundary (days : List Int) (d : Int) :
    d - (countConsecutive days days.dedup.length d : Int) ∉ days := by
  set fuel := days.dedup.length with hfuel
  have hle := countConsecutive_le_fuel days fuel d
  rcases Nat.lt_or_ge (countConsecutive days fuel d) fuel with hlt | hge
  · exact countConsecutive_stop days fuel d hlt
  · have heq : countConsecutive days fuel d = fuel := Nat.le_antisymm hle hge
    intro hmem
    have hrun := countConsecutive_run days fuel d
    have hsubset : (Finset.range (fuel + 1)).image (fun j : Nat => d - (j : Int)) ⊆
        days.toFinset := by
      intro x hx
      rw [Finset.mem_image] at hx
      obtain ⟨j, hj, rfl⟩ := hx
      rw [Finset.mem_range] at hj
      rw [List.mem_toFinset]
      rcases Nat.lt_or_ge j fuel with hjlt | hjge
    
      · have := hrun j (by omega)
        exact this
      · have hjeq : j = fuel := by omega
        rw [hjeq, ← heq]
        exact hmem
    have hinj : Function.Injective (fun j : Nat => d - (j : Int)) := by
      intro a b hab
      simp only at hab
      omega
    have hcard1 : ((Finset.range (fuel + 1)).image (fun j : Nat => d - (j : Int))).card =
        fuel + 1 := by
      rw [Finset.card_image_of_injective _ hinj, Finset.card_range]
    have hcard2 : days.toFinset.card = fuel := by
      rw [hfuel, List.card_toFinset]
    have := Finset.card_le_card hsubset
    omega

/-- The scan's result dominates both accumulators. -/
theorem longestScan_ge (l : List Int) :
    ∀ (prev : Int) (lg st : Nat), max lg st ≤ longestScan prev lg st l := by
  induction l with
  | nil => intro prev lg st; rw [longestScan]
  | cons d rest ih =>
    intro prev lg st
    rw [longestScan]
    by_cases h : d - prev = 1
    · rw [if_pos h]
      have := ih d lg (st + 1)
      omega
    · rw [if_neg h]
      have := ih d (max lg st) 1
      omega

/-- The scan's result is a realized run length: some day of the set ends a
run of that length. -/
theorem longestScan_realized (S : List Int) (l : List Int) :
    ∀ (prev : Int) (lg st : Nat),
      runEndingAt S prev st → (∃ e, runEndingAt S e lg) →
      (∀ x ∈ l, x ∈ S) →
      ∃ e, runEndingAt S e (longestScan prev lg st l) := by
  induction l with
  | nil =>
    intro prev lg st hst ⟨e, he⟩ _
    rw [longestScan]
    rcases Nat.le_total lg st with hle | hle
    · rw [Nat.max_eq_right hle]
      exact ⟨prev, hst⟩
    · rw [Nat.max_eq_left hle]
      exact ⟨e, he⟩
  | cons d rest ih =>
    intro prev lg st hst hlg hsub
    have hdS : d ∈ S := hsub d (List.mem_cons_self d rest)
    have hsub' : ∀ x ∈ rest, x ∈ S := fun x hx => hsub x (List.mem_cons_of_mem d hx)
    rw [longestScan]
    by_cases h : d - prev = 1
    · rw [if_pos h]
      apply ih d lg (st + 1) ?_ hlg hsub'
      intro j hj
      cases j with
      | zero => simpa using hdS
      | succ j' =>
        have harith : d - ((j' + 1 : Nat) : Int) = prev - (j' : Int) := by
          push_cast
          omega
        rw [harith]
        exact hst j' (by omega)
    · rw [if_neg h]
      apply ih d (max lg st) 1 ?_ ?_ hsub'
      · intro j hj
        have hj0 : j = 0 := by omega
        rw [hj0]
        simpa using hdS
      · rcases Nat.le_total lg st with hle | hle
        · rw [Nat.max_eq_right hle]
          exact ⟨prev, hst⟩
        · rw [Nat.max_eq_left hle]
          exact hlg

/-- The scan's result bounds every run of consecutive days in the set, when
the unprocessed tail is exactly the part of the set above `prev`, the
streak accumulator bounds every run ending at `prev`, and the longest
accumulator (joined with the streak) bounds every run ending at or below
`prev`. -/
theorem longestScan_bounds (S : List Int) (l : List Int) :
    ∀ (prev : Int) (lg st : Nat),
      (prev :: l).Pairwise (· < ·) →
      (∀ x ∈ S, prev < x → x ∈ l) →
      (∀ k, runEndingAt S prev k → k ≤ st) →
      (∀ e ∈ S, e ≤ prev → ∀ k, runEndingAt S e k → k ≤ max lg st) →
      ∀ e ∈ S, ∀ k, runEndingAt S e k → k ≤ longestScan prev lg st l := by
  induction l with
  | nil =>
    intro prev lg st _ hcover _ hlg e heS k hk
    rw [longestScan]
    rcases Int.le_or_lt e prev with hle | hgt
    · exact hlg e heS hle k hk
    · exact absurd (hcover e heS hgt) (List.not_mem_nil e)
  | cons d rest ih =>
    intro prev lg st hsorted hcover hst hlg
    have hpd : prev < d := List.rel_of_pairwise_cons hsorted (List.mem_cons_self d rest)
    have hrest_gt : ∀ x ∈ rest, d < x :=
      fun x hx => List.rel_of_pairwise_cons (List.pairwise_cons.mp hsorted).2 hx
    have hsorted' : (d :: rest).Pairwise (· < ·) := (List.pairwise_cons.mp hsorted).2
    have hcover' : ∀ x ∈ S, d < x → x ∈ rest := by
      intro x hxS hdx
      have hx : x ∈ d :: rest := hcover x hxS (lt_trans hpd hdx)
      rcases List.mem_cons.mp hx with hxd | hxr
      · omega
      · exact hxr
    rw [longestScan]
    by_cases h : d - prev = 1
    · rw [if_pos h]
      apply ih d lg (st + 1) hsorted' hcover'
      · intro k hk
        cases k with
        | zero => omega
        | succ k' =>
          have hk' : runEndingAt S prev k' := by
            intro j hj
            have harith : prev - (j : Int) = d - ((j + 1 : Nat) : Int) := by
              push_cast
              omega
            rw [harith]
            exact hk (j + 1) (by omega)
          have := hst k' hk'
          omega
      · intro e heS hed k hk
        rcases Int.le_or_lt e prev with hle | hgt
        · have := hlg e heS hle k hk
          omega
        · have hx : e ∈ d :: rest := hcover e heS hgt
          have hed2 : e = d := by
            rcases List.mem_cons.mp hx with hxd | hxr
            · exact hxd
            · have := hrest_gt e hxr
              omega
          subst hed2
          cases k with
          | zero => omega
          | succ k' =>
            have hk' : runEndingAt S prev k' := by
              intro j hj
              have harith : prev - (j : Int) = e - ((j + 1 : Nat) : Int) := by
                push_cast
                omega
              rw [harith]
              exact hk (j + 1) (by omega)
            have := hst k' hk'
            omega
    · rw [if_neg h]
      have hgap : prev + 1 < d := by omega
      apply ih d (max lg st) 1 hsorted' hcover'
      · intro k hk
        by_contra hk2
        push_neg at hk2
        have hd1 : d - (1 : Int) ∈ S := by
          have := hk 1 (by omega)
          simpa using this
        have hx : d - 1 ∈ d :: rest := hcover (d - 1) hd1 (by omega)
        rcases List.mem_cons.mp hx with hxd | hxr
        · omega
        · have := hrest_gt (d - 1) hxr
          omega
      · intro e heS hed k hk
        rcases Int.le_or_lt e prev with hle | hgt
        · have := hlg e heS hle k hk
          omega
        · have hx : e ∈ d :: rest := hcover e heS hgt
          have hed2 : e = d := by
            rcases List.mem_cons.mp hx with hxd | hxr
            · exact hxd
            · have := hrest_gt e hxr
              omega
          subst hed2
          by_contra hk2
          push_neg at hk2
          have hd1 : e - (1 : Int) ∈ S := by
            have := hk 1 (by omega)
            simpa using this
          have hx2 : e - 1 ∈ e :: rest := hcover (e - 1) hd1 (by omega)
          rcases List.mem_cons.mp hx2 with hxd | hxr
          · omega
          · have := hrest_gt (e - 1) hxr
            omega

/-- The ascending distinct-day list is a permutation of the deduplicated day
list. -/
theorem sortedDateStrings_perm (s : TypedState) :
    List.Perm (sortedDateStrings s) ((activeDays s).dedup) :=
  List.perm_insertionSort _ _

/-- Membership in the sorted distinct-day list is membership in the day
list. -/
theorem mem_sortedDateStrings (s : TypedState) (x : Int) :
    x ∈ sortedDateStrings s ↔ x ∈ activeDays s :=
  (sortedDateStrings_perm s).mem_iff.trans (List.mem_dedup)

/-- The sorted distinct-day list is strictly increasing. -/
theorem sortedDateStrings_pairwise_lt (s : TypedState) :
    (sortedDateStrings s).Pairwise (· < ·) := by
  have hsorted : (sortedDateStrings s).Sorted (fun a b : Int => a ≤ b) :=
    List.sorted_insertionSort _ _
  have hnd : (sortedDateStrings s).Nodup :=
    (sortedDateStrings_perm s).nodup_iff.mpr (List.nodup_dedup _)
  have hand := List.Pairwise.and hsorted hnd
  exact hand.imp fun h => lt_of_le_of_ne h.1 h.2

/-- Auxiliary: an empty sorted distinct-day list forces an empty active-entry
list. -/
theorem activeEntries_eq_nil_of_sorted_nil (s : TypedState)
    (hsd : sortedDateStrings s = []) : activeEntries s = [] := by
  have hp := (sortedDateStrings_perm s).symm
  rw [hsd] at hp
  have hdedup : (activeDays s).dedup = [] := hp.eq_nil
  have hdays : activeDays s = [] := (List.dedup_eq_nil _).mp hdedup
  have hlen := congrArg List.length hdays
  simp [activeDays] at hlen
  exact hlen

/-- C3: `calculateStreak` computes over the non-deleted entries: with none,
all three fields are zero/null; otherwise, when the most recent entry's day
is more than one day before today the current streak is zero, when it is at
most one day before today the current streak counts exactly the consecutive
days present in the creation-day set walking backward from the most recent
entry's day (the walk covers its result and stops at an absent day); the
longest streak is the length of the longest run of consecutive days in the
set (it is realized by some run and bounds every run); and the last entry
date is the most recent entry's day. -/
theorem calculateStreak_spec (now : Timestamp) (s : TypedState) :
    (activeEntries s = [] →
      (calculateStreak now s).streakData =
        { currentStreak := 0, longestStreak := 0, lastEntryDate := none }) ∧
    (activeEntries s ≠ [] →
      (1 < dayOf now - lastActiveDay s →
        (calculateStreak now s).streakData.currentStreak = 0) ∧
      (dayOf now - lastActiveDay s ≤ 1 →
        runEndingAt (activeDays s) (lastActiveDay s)
          (calculateStreak now s).streakData.currentStreak ∧
        lastActiveDay s -
          ((calculateStreak now s).streakData.currentStreak : Int) ∉ activeDays s) ∧
      (∃ d, runEndingAt (activeDays s) d
        (calculateStreak now s).streakData.longestStreak) ∧
      (∀ d k, runEndingAt (activeDays s) d k →
        k ≤ (calculateStreak now s).streakData.longestStreak) ∧
      (calculateStreak now s).streakData.lastEntryDate =
        some (lastActiveDay s * msPerDay)) ∧
    (calculateStreak (2 * msPerDay) streakState3).streakData.currentStreak = 3 ∧
    (calculateStreak (2 * msPerDay) streakStateGap).streakData.currentStreak = 1 ∧
    (calculateStreak (2 * msPerDay) streakStateGap).streakData.longestStreak = 1 := by
  refine ⟨?_, ?_, by decide, by decide, by decide⟩
  · intro h
    simp [calculateStreak, h]
  · intro h
    have hsd1 : (calculateStreak now s).streakData =
        { currentStreak :=
            if 1 < dayOf now - lastActiveDay s then 0
            else countConsecutive (activeDays s) (activeDays s).dedup.length
              (lastActiveDay s),
          longestStreak :=
            match sortedDateStrings s with
            | [] => 0
            | d0 :: rest => longestScan d0 0 1 rest,
          lastEntryDate := some (lastActiveDay s * msPerDay) } := by
      simp [calculateStreak, h]
    refine ⟨?_, ?_, ?_, ?_, ?_⟩
    · intro hlate
      rw [hsd1]
      simp [hlate]
    · intro hrecent
      have hnot : ¬ 1 < dayOf now - lastActiveDay s := by omega
      rw [hsd1]
      simp only [if_neg hnot]
      exact ⟨countConsecutive_run _ _ _, countConsecutive_boundary _ _⟩
    · cases hsd : sortedDateStrings s with
      | nil => exact absurd (activeEntries_eq_nil_of_sorted_nil s hsd) h
      | cons d0 rest =>
        have hd0 : d0 ∈ activeDays s := by
          rw [← mem_sortedDateStrings, hsd]
          exact List.mem_cons_self d0 rest
        have hrestS : ∀ x ∈ rest, x ∈ activeDays s := by
          intro x hx
          rw [← mem_sortedDateStrings, hsd]
          exact List.mem_cons_of_mem d0 hx
        have hlong : (calculateStreak now s).streakData.longestStreak =
            longestScan d0 0 1 rest := by
          rw [hsd1]
          simp [hsd]
        rw [hlong]
        apply longestScan_realized (activeDays s) rest d0 0 1
        · intro j hj
          have hj0 : j = 0 := by omega
          rw [hj0]
          simpa using hd0
        · exact ⟨0, fun j hj => absurd hj (by omega)⟩
        · exact hrestS
    · cases hsd : sortedDateStrings s with
      | nil => exact absurd (activeEntries_eq_nil_of_sorted_nil s hsd) h
      | cons d0 rest =>
        have hpw : (d0 :: rest).Pairwise (· < ·) := by
          rw [← hsd]
          exact sortedDateStrings_pairwise_lt s
        have hrest_gt : ∀ x ∈ rest, d0 < x :=
          fun x hx => List.rel_of_pairwise_cons hpw hx
        have hcover : ∀ x ∈ activeDays s, d0 < x → x ∈ rest := by
          intro x hxS hdx
          have hx : x ∈ d0 :: rest := by
            rw [← hsd, mem_sortedDateStrings]
            exact hxS
          rcases List.mem_cons.mp hx with hxd | hxr
          · omega
          · exact hxr
        have hst : ∀ k, runEndingAt (activeDays s) d0 k → k ≤ 1 := by
          intro k hk
          by_contra hk2
          push_neg at hk2
          have hd1 : d0 - (1 : Int) ∈ activeDays s := by
            have := hk 1 (by omega)
            simpa using this
          have hx : d0 - 1 ∈ d0 :: rest := by
            rw [← hsd, mem_sortedDateStrings]
            exact hd1
          rcases List.mem_cons.mp hx with hxd | hxr
          · omega
          · have := hrest_gt (d0 - 1) hxr
            omega
        have hlg : ∀ e ∈ activeDays s, e ≤ d0 →
            ∀ k, runEndingAt (activeDays s) e k → k ≤ max 0 1 := by
          intro e heS hed k' hk'
          have hx : e ∈ d0 :: rest := by
            rw [← hsd, mem_sortedDateStrings]
            exact heS
          have hed0 : e = d0 := by
            rcases List.mem_cons.mp hx with hxd | hxr
            · exact hxd
            · have := hrest_gt e hxr
              omega
          subst hed0
          have := hst k' hk'
          have hmax : max 0 1 = 1 := rfl
          omega
        have hlong : (calculateStreak now s).streakData.longestStreak =
            longestScan d0 0 1 rest := by
          rw [hsd1]
          simp [hsd]
        rw [hlong]
        intro d k hk
        cases k with
        | zero => exact Nat.zero_le _
        | succ k' =>
          have hdS : d ∈ activeDays s := by
            have := hk 0 (by omega)
            simpa using this
          exact longestScan_bounds (activeDays s) rest d0 0 1 hpw hcover hst hlg
            d hdS (k' + 1) hk
    · rw [hsd1]

/-- C3 witness: the D, D-1, D-2 scenario with D = day 2 and today = D; the
characterization applies, and the computed current streak is 3. -/
theorem calculateStreak_spec_witness :
    activeEntries streakState3 ≠ [] ∧
    dayOf (2 * msPerDay) - lastActiveDay streakState3 ≤ 1 ∧
    runEndingAt (activeDays streakState3) (lastActiveDay streakState3)
      (calculateStreak (2 * msPerDay) streakState3).streakData.currentStreak ∧
    lastActiveDay streakState3 -
      ((calculateStreak (2 * msPerDay) streakState3).streakData.currentStreak : Int) ∉
        activeDays streakState3 :=
  ⟨by decide, by decide,
   ((((calculateStreak_spec (2 * msPerDay) streakState3).2.1
        (by decide)).2.1 (by decide))).1,
   ((((calculateStreak_spec (2 * msPerDay) streakState3).2.1
        (by decide)).2.1 (by decide))).2⟩

/-- Auxiliary characterization of `importEntries`: it fails closed, with the
state untouched, exactly when the guard finds no entries array or no entry
survives validation, and otherwise prepends the processed survivors,
returning `true` and touching only `entries`, `entriesLength` and
`cachedTags`. -/
theorem importEntries_characterization (newDate : JVal → Option Int)
    (p : Option JVal) (s : DynState) :
    (entriesArrayOf p = none → importEntries newDate p s = (false, s)) ∧
    (∀ es, entriesArrayOf p = some es →
      (es.filter isValidJournalEntry = [] →
        importEntries newDate p s = (false, s)) ∧
      (es.filter isValidJournalEntry ≠ [] →
        importEntries newDate p s =
          (true, { s with
            entries := (es.filter isValidJournalEntry).map (processEntry newDate)
              ++ s.entries,
            entriesLength := s.entries.length +
              ((es.filter isValidJournalEntry).map (processEntry newDate)).length,
            cachedTags := none }))) := by
  constructor
  · intro hnone
    cases p with
    | none => rfl
    | some parsed =>
      cases parsed with
      | null => rfl
      | undef => rfl
      | bool b => rfl
      | num n => rfl
      | str str2 => rfl
      | date t => rfl
      | arr es2 => rfl
      | obj fs =>
        cases ha : truthy (getField (JVal.obj fs) "entries") <;>
          cases hb : (getField (JVal.obj fs) "entries").isArray <;>
            simp_all [entriesArrayOf, importEntries]
  · intro es hsome
    cases p with
    | none => simp [entriesArrayOf] at hsome
    | some parsed =>
      cases parsed with
      | null => simp [entriesArrayOf] at hsome
      | undef => simp [entriesArrayOf] at hsome
      | bool b => simp [entriesArrayOf, getField, truthy] at hsome
      | num n => simp [entriesArrayOf, getField, truthy] at hsome
      | str str2 => simp [entriesArrayOf, getField, truthy] at hsome
      | date t => simp [entriesArrayOf, getField, truthy] at hsome
      | arr es2 => simp [entriesArrayOf, getField, truthy] at hsome
      | obj fs =>
        by_cases ha : truthy (getField (JVal.obj fs) "entries") = true
        · by_cases hb : (getField (JVal.obj fs) "entries").isArray = true
          · have hes : (getField (JVal.obj fs) "entries").elements = es := by
              simpa [entriesArrayOf, ha, hb] using hsome
            subst hes
            constructor
            · intro hempty
              simp [importEntries, ha, hb, hempty]
            · intro hne
              have hlen : ¬ ((getField (JVal.obj fs) "entries").elements.filter
                  isValidJournalEntry).length = 0 := by
                intro h0
                exact hne (List.length_eq_zero.mp h0)
              simp [importEntries, ha, hb, hlen]
          · simp [entriesArrayOf, ha, hb] at hsome
        · simp [entriesArrayOf, ha] at hsome

/-- C1: for every parse outcome, `importEntries` returns `false` and leaves
the whole store state unchanged whenever parsing threw, the parsed value is
nullish, the top-level `entries` property is missing or not an array, or no
parsed entry passes structural validation; whenever at least one entry
survives validation it returns `true`, prepends exactly the processed
survivors to the collection, updates only the collection length and the tag
cache, and leaves every other state field unchanged. Being a total
function, it lets no exception escape (the source's `try`/`catch` converts
the two throwing paths into the `false` outcome, modelled by the `none` and
nullish cases). -/
theorem importEntries_spec (newDate : JVal → Option Int) (p : Option JVal)
    (s : DynState) :
    (entriesArrayOf p = none → importEntries newDate p s = (false, s)) ∧
    (∀ es, entriesArrayOf p = some es →
      (es.filter isValidJournalEntry = [] →
        importEntries newDate p s = (false, s)) ∧
      (es.filter isValidJournalEntry ≠ [] →
        (importEntries newDate p s).1 = true ∧
        (importEntries newDate p s).2.entries =
          (es.filter isValidJournalEntry).map (processEntry newDate) ++ s.entries ∧
        (importEntries newDate p s).2.currentEntry = s.currentEntry ∧
        (importEntries newDate p s).2.searchQuery = s.searchQuery ∧
        (importEntries newDate p s).2.selectedTag = s.selectedTag ∧
        (importEntries newDate p s).2.selectedMood = s.selectedMood ∧
        (importEntries newDate p s).2.selectedDate = s.selectedDate ∧
        (importEntries newDate p s).2.isEditing = s.isEditing ∧
        (importEntries newDate p s).2.viewMode = s.viewMode ∧
        (importEntries newDate p s).2.settings = s.settings ∧
        (importEntries newDate p s).2.streakData = s.streakData ∧
        (importEntries newDate p s).2.entriesLength =
          s.entries.length + (es.filter isValidJournalEntry).length ∧
        (importEntries newDate p s).2.cachedTags = none)) := by
  obtain ⟨h1, h2⟩ := importEntries_characterization newDate p s
  refine ⟨h1, ?_⟩
  intro es hes
  obtain ⟨hempty, hne⟩ := h2 es hes
  refine ⟨hempty, ?_⟩
  intro hn
  rw [hne hn]
  simp

/-- C1 witness: a one-entry import document against the empty store. -/
theorem importEntries_spec_witness :
    entriesArrayOf (some sampleImportValue) = some [sampleImportEntry] ∧
    [sampleImportEntry].filter isValidJournalEntry ≠ [] ∧
    (importEntries (fun _ => none) (some sampleImportValue) initialState).1 = true :=
  ⟨rfl,
   by
     rw [show [sampleImportEntry].filter isValidJournalEntry = [sampleImportEntry]
       from rfl]
     exact List.cons_ne_nil _ _,
   (((importEntries_spec (fun _ => none) (some sampleImportValue)
       initialState).2 [sampleImportEntry] rfl).2
     (by
       rw [show [sampleImportEntry].filter isValidJournalEntry = [sampleImportEntry]
         from rfl]
       exact List.cons_ne_nil _ _)).1⟩

/-- Auxiliary: assigning one key leaves lookups of other keys unchanged. -/
theorem lookupField_setFieldList_ne (fs : List (String × JVal)) (k : String)
    (v : JVal) (k' : String) (h : k ≠ k') :
    lookupField (setFieldList fs k v) k' = lookupField fs k' := by
  induction fs with
  | nil => simp [setFieldList, lookupField, h]
  | cons hd tl ih =>
    obtain ⟨k0, v0⟩ := hd
    by_cases h0 : k0 = k
    · subst h0
      rw [setFieldList, if_pos rfl]
      rw [lookupField, lookupField]
      rcases eq_or_ne k0 k' with h1 | h1
      · exact absurd h1 h
      · rw [if_neg h, if_neg h1]
    · rw [setFieldList, if_neg h0]
      rw [lookupField, lookupField]
      rcases eq_or_ne k0 k' with h1 | h1
      · rw [if_pos h1, if_pos h1]
      · rw [if_neg h1, if_neg h1]
        exact ih

/-- Auxiliary: the date processing touches only the three timestamp keys. -/
theorem getField_processEntry (newDate : JVal → Option Int) (e : JVal)
    (k : String) (h1 : k ≠ "createdAt") (h2 : k ≠ "updatedAt")
    (h3 : k ≠ "deletedAt") :
    getField (processEntry newDate e) k = getField e k := by
  cases e <;> simp only [processEntry, setField, getField]
  rw [lookupField_setFieldList_ne _ _ _ _ (Ne.symm h3),
    lookupField_setFieldList_ne _ _ _ _ (Ne.symm h2),
    lookupField_setFieldList_ne _ _ _ _ (Ne.symm h1)]

/-- Auxiliary: a structurally valid entry is a plain object (arrays, dates
and primitives have no `id` property). -/
theorem isValidJournalEntry_obj {e : JVal}
    (h : isValidJournalEntry e = true) : ∃ fs, e = JVal.obj fs := by
  cases e <;>
    simp_all [isValidJournalEntry, isObjectType, getField, JVal.isStr,
      JVal.isNull]

/-- Auxiliary: a value satisfying `isStr` is a string literal. -/
theorem isStr_exists {v : JVal} (h : v.isStr = true) :
    ∃ a, v = JVal.str a := by
  cases v <;> simp_all [JVal.isStr]

/-- Auxiliary: the round trip preserves a string-valued field lookup. -/
theorem lookupField_reparseFields_str (isoOf : Int → String)
    (fs : List (String × JVal)) (k : String) (a : String)
    (h : lookupField fs k = JVal.str a) :
    lookupField (reparseFields isoOf fs) k = JVal.str a := by
  induction fs with
  | nil => simp [lookupField] at h
  | cons hd tl ih =>
    obtain ⟨k0, v0⟩ := hd
    by_cases hk : k0 = k
    · subst hk
      rw [lookupField, if_pos rfl] at h
      subst h
      simp [reparseFields, lookupField, reparse]
    · rw [lookupField, if_neg hk] at h
      cases v0 <;> simp [reparseFields, lookupField, hk] <;> exact ih h

/-- Auxiliary: the round trip of a structurally valid object is again
structurally valid. -/
theorem isValid_reparse_obj (isoOf : Int → String)
    (fs : List (String × JVal))
    (h : isValidJournalEntry (JVal.obj fs) = true) :
    isValidJournalEntry (reparse isoOf (JVal.obj fs)) = true := by
  simp only [isValidJournalEntry, getField, Bool.and_eq_true] at h
  obtain ⟨⟨⟨⟨hobj, hnull⟩, hid⟩, htitle⟩, hcontent⟩ := h
  obtain ⟨a, ha⟩ := isStr_exists hid
  obtain ⟨b, hb⟩ := isStr_exists htitle
  obtain ⟨c, hc⟩ := isStr_exists hcontent
  have hid2 := lookupField_reparseFields_str isoOf fs "id" a ha
  have htitle2 := lookupField_reparseFields_str isoOf fs "title" b hb
  have hcontent2 := lookupField_reparseFields_str isoOf fs "content" c hc
  simp [reparse, isValidJournalEntry, getField, isObjectType, JVal.isNull,
    hid2, htitle2, hcontent2, JVal.isStr]


/-- Auxiliary: the round trip of a list of plain objects maps `reparse` over
it (no element is `undefined`). -/
theorem reparseElements_eq_map (isoOf : Int → String) (l : List JVal)
    (h : ∀ v ∈ l, ∃ fs, v = JVal.obj fs) :
    reparseElements isoOf l = l.map (reparse isoOf) := by
  induction l with
  | nil => rfl
  | cons v rest ih =>
    obtain ⟨fs, rfl⟩ := h v (List.mem_cons_self v rest)
    have htail := ih (fun x hx => h x (List.mem_cons_of_mem _ hx))
    simp [reparseElements, htail]

/-- Auxiliary: the date processing of a plain object is a plain object. -/
theorem processEntry_obj (newDate : JVal → Option Int)
    (fs : List (String × JVal)) :
    ∃ gs, processEntry newDate (JVal.obj fs) = JVal.obj gs := by
  simp only [processEntry, setField]
  exact ⟨_, rfl⟩

/-- Auxiliary: a structurally valid entry has a string `id`. -/
theorem getField_id_str {e : JVal} (h : isValidJournalEntry e = true) :
    ∃ a, getField e "id" = JVal.str a := by
  simp only [isValidJournalEntry, Bool.and_eq_true] at h
  exact isStr_exists h.1.1.2

/-- Auxiliary: the date processing preserves structural validity. -/
theorem isValid_processEntry (newDate : JVal → Option Int) (e : JVal)
    (h : isValidJournalEntry e = true) :
    isValidJournalEntry (processEntry newDate e) = true := by
  obtain ⟨fs, rfl⟩ := isValidJournalEntry_obj h
  obtain ⟨gs, hgs⟩ := processEntry_obj newDate fs
  have h1 := getField_processEntry newDate (JVal.obj fs) "id"
    (by decide) (by decide) (by decide)
  have h2 := getField_processEntry newDate (JVal.obj fs) "title"
    (by decide) (by decide) (by decide)
  have h3 := getField_processEntry newDate (JVal.obj fs) "content"
    (by decide) (by decide) (by decide)
  simp only [isValidJournalEntry, Bool.and_eq_true] at h
  obtain ⟨⟨⟨⟨hobj, hnull⟩, hid⟩, htitle⟩, hcontent⟩ := h
  rw [hgs] at h1 h2 h3
  simp [isValidJournalEntry, hgs, isObjectType, JVal.isNull, h1, h2, h3,
    hid, htitle, hcontent]

/-- Auxiliary: exporting, round tripping and re-processing a valid processed
entry preserves its `id` value. -/
theorem getField_id_roundtrip (newDate : JVal → Option Int)
    (isoOf : Int → String) {q : JVal} (hobj : ∃ gs, q = JVal.obj gs)
    (hval : isValidJournalEntry q = true) :
    getField (processEntry newDate (reparse isoOf q)) "id" =
      getField q "id" := by
  obtain ⟨gs, rfl⟩ := hobj
  obtain ⟨a, ha⟩ := getField_id_str hval
  have h1 : getField (reparse isoOf (JVal.obj gs)) "id" = JVal.str a := by
    simp only [reparse, getField]
    simp only [getField] at ha
    exact lookupField_reparseFields_str isoOf gs "id" a ha
  rw [getField_processEntry newDate _ "id" (by decide) (by decide) (by decide),
    h1, ha]

/-- C2: for a store built by a single import (of an arbitrary parse result)
into the initially empty store, importing the round-tripped export leaves
the collection's set of ids unchanged: the export serializes every entry,
each re-parsed entry passes validation again, and the second import prepends
a copy of each entry, so every id present before is present after and vice
versa. The hypothesis restricts the original document to genuine
`JSON.parse` results, on which the round-trip model is faithful. -/
theorem export_import_id_set (newDate : JVal → Option Int)
    (isoOf : Int → String) (p : Option JVal)
    (hp : ∀ v, p = some v → isParseValue v = true) :
    ∀ x,
      (x ∈ ((importEntries newDate
          (some (reparse isoOf (exportValue
            (importEntries newDate p initialState).2)))
          (importEntries newDate p initialState).2).2.entries.map
            (fun e => getField e "id")) ↔
       x ∈ ((importEntries newDate p initialState).2.entries.map
            (fun e => getField e "id"))) := by
  obtain ⟨hfail, hok⟩ := importEntries_characterization newDate p initialState
  have hempty_case : ∀ (s1 : DynState), s1.entries = [] →
      importEntries newDate (some (reparse isoOf (exportValue s1))) s1 =
        (false, s1) := by
    intro s1 h1
    have hr : reparse isoOf (exportValue s1) =
        JVal.obj [("entries", JVal.arr [])] := by
      rw [exportValue, h1]
      simp [reparse, reparseFields, reparseElements]
    rw [hr]
    obtain ⟨hf2, hk2⟩ := importEntries_characterization newDate
      (some (JVal.obj [("entries", JVal.arr [])])) s1
    exact (hk2 [] rfl).1 rfl
  intro x
  cases hea : entriesArrayOf p with
  | none =>
    rw [hfail hea]
    rw [show ((false, initialState) :
        Bool × DynState).2 = initialState from rfl]
    rw [hempty_case initialState rfl]
  | some es =>
    obtain ⟨hzero, hsucc⟩ := hok es hea
    by_cases hv : es.filter isValidJournalEntry = []
    · rw [hzero hv]
      rw [show ((false, initialState) :
          Bool × DynState).2 = initialState from rfl]
      rw [hempty_case initialState rfl]
    · have hVvalid : ∀ v ∈ es.filter isValidJournalEntry,
          isValidJournalEntry v = true :=
        fun v hv2 => (List.mem_filter.mp hv2).2
      have hPobj : ∀ q ∈ (es.filter isValidJournalEntry).map
          (processEntry newDate), ∃ gs, q = JVal.obj gs := by
        intro q hq
        obtain ⟨v, hvV, rfl⟩ := List.mem_map.mp hq
        obtain ⟨fs, rfl⟩ := isValidJournalEntry_obj (hVvalid v hvV)
        exact processEntry_obj newDate fs
      have hPvalid : ∀ q ∈ (es.filter isValidJournalEntry).map
          (processEntry newDate), isValidJournalEntry q = true := by
        intro q hq
        obtain ⟨v, hvV, rfl⟩ := List.mem_map.mp hq
        exact isValid_processEntry newDate v (hVvalid v hvV)
      have hPne : (es.filter isValidJournalEntry).map (processEntry newDate)
          ≠ [] := by
        intro h0
        exact hv (List.map_eq_nil_iff.mp h0)
      have hstent : (importEntries newDate p initialState).2.entries =
          (es.filter isValidJournalEntry).map (processEntry newDate) := by
        rw [hsucc hv]
        show (es.filter isValidJournalEntry).map (processEntry newDate) ++
          initialState.entries = _
        rw [show initialState.entries = ([] : List JVal) from rfl,
          List.append_nil]
      have hr : reparse isoOf (exportValue
          (importEntries newDate p initialState).2) =
          JVal.obj [("entries", JVal.arr
            (((es.filter isValidJournalEntry).map (processEntry newDate)).map
              (reparse isoOf)))] := by
        rw [exportValue, hstent]
        simp [reparse, reparseFields, reparseElements_eq_map isoOf _ hPobj]
      have harr2 : entriesArrayOf (some (JVal.obj [("entries", JVal.arr
            (((es.filter isValidJournalEntry).map (processEntry newDate)).map
              (reparse isoOf)))])) =
          some (((es.filter isValidJournalEntry).map (processEntry newDate)).map
            (reparse isoOf)) := rfl
      have hfilter2 : (((es.filter isValidJournalEntry).map
            (processEntry newDate)).map (reparse isoOf)).filter
            isValidJournalEntry =
          ((es.filter isValidJournalEntry).map (processEntry newDate)).map
            (reparse isoOf) := by
        apply List.filter_eq_self.mpr
        intro q hq
        obtain ⟨q0, hq0, rfl⟩ := List.mem_map.mp hq
        obtain ⟨gs, hgs⟩ := hPobj q0 hq0
        rw [hgs]
        exact isValid_reparse_obj isoOf gs (hgs ▸ hPvalid q0 hq0)
      have hne2 : (((es.filter isValidJournalEntry).map
            (processEntry newDate)).map (reparse isoOf)).filter
            isValidJournalEntry ≠ [] := by
        rw [hfilter2]
        intro h0
        exact hPne (List.map_eq_nil_iff.mp h0)
      obtain ⟨hf3, hok3⟩ := importEntries_characterization newDate
        (some (JVal.obj [("entries", JVal.arr
          (((es.filter isValidJournalEntry).map (processEntry newDate)).map
            (reparse isoOf)))])) (importEntries newDate p initialState).2
      have h2 := (hok3 _ harr2).2 hne2
      have hidseq : ((((es.filter isValidJournalEntry).map
            (processEntry newDate)).map (reparse isoOf)).map
            (processEntry newDate)).map (fun e => getField e "id") =
          ((es.filter isValidJournalEntry).map (processEntry newDate)).map
            (fun e => getField e "id") := by
        rw [List.map_map, List.map_map]
        apply List.map_congr_left
        intro q hq
        exact getField_id_roundtrip newDate isoOf (hPobj q hq) (hPvalid q hq)
      rw [hr, h2]
      rw [show ∀ (st : DynState), ((true, st) : Bool × DynState).2 = st
        from fun st => rfl]
      simp only [hfilter2, hstent, List.map_append, List.mem_append, hidseq]
      tauto

/-- C2 witness: the round trip at a concrete one-entry import document. -/
theorem export_import_id_set_witness :
    isParseValue sampleImportValue = true ∧
    (JVal.str "x" ∈ ((importEntries (fun _ => none)
        (some (reparse (fun t => toString t) (exportValue
          (importEntries (fun _ => none) (some sampleImportValue)
            initialState).2)))
        (importEntries (fun _ => none) (some sampleImportValue)
          initialState).2).2.entries.map (fun e => getField e "id")) ↔
     JVal.str "x" ∈ ((importEntries (fun _ => none) (some sampleImportValue)
        initialState).2.entries.map (fun e => getField e "id"))) :=
  ⟨by decide,
   export_import_id_set (fun _ => none) (fun t => toString t)
     (some sampleImportValue)
     (fun v hv => by
       obtain rfl := Option.some.inj hv
       decide)
     (JVal.str "x")⟩

end Sojourn
